import Mathlib

/-!
Verification development for the `toy` compiler: a lowering pipeline from Go
AST form to LLVM IR. The definitions below are a shallow embedding of the
lowering code (packages `lower`, `cmd/toyc`): IR types and values, the
per-function basic-block state, expression lowering, statement lowering,
and top-level declaration indexing. Machine integers are modelled as `Nat`
and `Int` with explicit reduction modulo powers of two where the Go code
relies on 64-bit wraparound.
-/

namespace Toy

/-! IR types, mirroring the subset of `llir/llvm/ir/types` used by the
lowering code. Type names (`SetName`) are tracked in the type-definition
table keyed by name; the structural part of a type is modelled here. -/

inductive IRType where
  | int (bits : Nat)
  | fsingle
  | fdouble
  | void
  | ptr (elem : IRType)
  | strukt (fields : List IRType)
  | vector (len : Nat) (elem : IRType)
  | funcT (ret : IRType) (params : List IRType)

/-- Structural type equality, mirroring `types.Equal`. -/
def tyEq : IRType → IRType → Bool
  | .int n, .int m => n == m
  | .fsingle, .fsingle => true
  | .fdouble, .fdouble => true
  | .void, .void => true
  | .ptr a, .ptr b => tyEq a b
  | .strukt fs, .strukt gs => go fs gs
  | .vector n a, .vector m b => n == m && tyEq a b
  | .funcT r ps, .funcT r2 ps2 => tyEq r r2 && go ps ps2
  | _, _ => false
where go : List IRType → List IRType → Bool
  | [], [] => true
  | a :: as, b :: bs => tyEq a b && go as bs
  | _, _ => false

/-- Function signature: the data of an `ir.Function` declaration
(name after receiver folding, parameter types, return type). -/
structure FuncSig where
  name : String
  params : List IRType
  ret : IRType

/-- IR values, mirroring `value.Value` as produced by expression lowering:
instruction results, constants, vector constants built by broadcasting a
scalar constant, undefined aggregates, and references to globals and
functions. -/
inductive Value where
  | instr (id : Nat) (t : IRType)
  | const (t : IRType) (v : Int)
  | constVec (len : Nat) (elem : Value)
  | undef (t : IRType)
  | globalRef (name : String) (content : IRType)
  | funcRef (sig : FuncSig)

/-- The IR type of a value. A global is a pointer to its content type; a
function is a pointer to its function type. -/
def typeOf : Value → IRType
  | .instr _ t => t
  | .const t _ => t
  | .constVec n e => .vector n (typeOf e)
  | .undef t => t
  | .globalRef _ c => .ptr c
  | .funcRef sig => .ptr (.funcT sig.ret sig.params)

/-! Helper functions of the expression lowerer
(`isIntOrIntVectorType`, `isFloatOrFloatVectorType`, `bitSize`,
`allZeros` / `allZero`, `allOnes` / `allOnesMask`). -/

/-- Mirror of `isIntOrIntVectorType`. -/
def isIntOrIntVectorType : IRType → Bool
  | .int _ => true
  | .vector _ (.int _) => true
  | _ => false

/-- Mirror of `isFloatOrFloatVectorType`. -/
def isFloatOrFloatVectorType : IRType → Bool
  | .fsingle => true
  | .fdouble => true
  | .vector _ .fsingle => true
  | .vector _ .fdouble => true
  | _ => false

/-- Mirror of `bitSize`: the bit size of an integer scalar or integer
vector type. -/
def bitSize : IRType → Option Nat
  | .int n => some n
  | .vector _ (.int n) => some n
  | _ => none

/-- Reportable compilation errors handed to the diagnostics sink, and
error values returned by fallible helpers. -/
inductive Err where
  | duplicateSymbol (name : String)
  | unresolvedIdent (name : String)
  | invalidOperandType
  | typeMismatch
  | invalidMaskOperand
  | locateFunc (name : String)
  | unsupportedDecl

/-- The accumulator loop of `allOnes` / `allOnesMask` on the 64-bit unsigned
representation of the Go `int64` variable `maskValue`: starting from zero,
each iteration `i` shifts left by one (with 64-bit wraparound) unless
`i == 0`, then sets the lowest bit. The Go loop bound `int64(size)` is
negative when `size ≥ 2^63`, in which case the loop body never runs. -/
def maskRep (size : Nat) : Nat :=
  (List.range (if size < 2^63 then size else 0)).foldl
    (fun x i => (if i ≠ 0 then x * 2 % 2^64 else x) ||| 1) 0

/-- Reinterpret the 64-bit unsigned representation as the Go `int64` value
stored into the integer constant. -/
def toInt64 (rep : Nat) : Int :=
  if rep < 2^63 then (rep : Int) else (rep : Int) - 2^64

/-- The bit pattern denoted by an integer constant of value `v` at bit
width `w` (two of every complement at width `w`). -/
def constBits (w : Nat) (v : Int) : Nat :=
  (v % ((2:Int)^w)).toNat

/-- Mirror of `allOnes` (also named `allOnesMask` in a second snapshot of
the same helper): an integer scalar or vector mask with every bit set to 1,
based on the bit size of the given type. Unsuitable types produce the
error returned to the caller of the `&^` lowering. -/
def allOnes (t : IRType) : Except Err Value :=
  match bitSize t with
  | none => .error .invalidMaskOperand
  | some size =>
    let elem := Value.const (.int size) (toInt64 (maskRep size))
    match t with
    | .vector n _ => .ok (.constVec n elem)
    | _ => .ok elem

/-- Mirror of `allZeros` / `allZero`: an all-zero constant of the shape of
the given integer scalar or vector type. -/
def allZeros (t : IRType) : Except Err Value :=
  match bitSize t with
  | none => .error .invalidMaskOperand
  | some size =>
    let elem := Value.const (.int size) 0
    match t with
    | .vector n _ => .ok (.constVec n elem)
    | _ => .ok elem

/-! Closed form of the mask accumulator. -/

theorem lor_one_pred (m : Nat) (hm : 1 ≤ m) : (2 ^ m - 2) ||| 1 = 2 ^ m - 1 := by
  have h2n : 2 ^ m - 2 = 2 * (2 ^ (m - 1) - 1) := by
    have : 2 ^ m = 2 * 2 ^ (m - 1) := by
      conv_lhs => rw [show m = 1 + (m - 1) by omega]
      rw [pow_add, pow_one]
    omega
  apply Nat.eq_of_testBit_eq
  intro i
  rw [Nat.testBit_lor, Nat.testBit_two_pow_sub_one, h2n]
  have hone : ∀ j, Nat.testBit 1 j = decide (j < 1) := by
    intro j
    have := Nat.testBit_two_pow_sub_one 1 j
    simpa using this
  rw [hone]
  rcases i with _ | j
  · have hz : (2 * (2 ^ (m - 1) - 1)).testBit 0 = false := by
      rw [Nat.testBit_zero]
      simp [Nat.mul_mod_right]
    rw [hz]
    simp only [Bool.false_or, decide_eq_decide]
    omega
  · have hs : (2 * (2 ^ (m - 1) - 1)).testBit (j + 1) = (2 ^ (m - 1) - 1).testBit j := by
      rw [Nat.testBit_add_one, Nat.mul_div_cancel_left _ (by omega : 0 < 2)]
    rw [hs, Nat.testBit_two_pow_sub_one]
    apply Bool.eq_iff_iff.mpr
    simp only [Bool.or_eq_true, decide_eq_true_eq]
    omega

theorem maskRep_eq (size : Nat) (h1 : 0 < size) (h2 : size < 2^63) :
    maskRep size = 2 ^ (min size 64) - 1 := by
  unfold maskRep
  rw [if_pos h2]
  clear h2
  induction size with
  | zero => omega
  | succ n ih =>
    rw [List.range_succ, List.foldl_append]
    rcases Nat.eq_zero_or_pos n with hn | hn
    · subst hn
      simp
    · rw [ih hn]
      simp only [List.foldl_cons, List.foldl_nil]
      rw [if_pos (by omega : n ≠ 0)]
      rcases Nat.lt_or_ge n 64 with h64 | h64
      · have hmin : min n 64 = n := by omega
        have hmin2 : min (n + 1) 64 = n + 1 := by omega
        rw [hmin, hmin2]
        have hpow : 2 ^ n ≥ 1 := Nat.one_le_two_pow
        have hmul : (2 ^ n - 1) * 2 = 2 ^ (n + 1) - 2 := by
          rw [pow_succ]
          omega
        have hlt : 2 ^ (n + 1) - 2 < 2 ^ 64 := by
          have : (2:Nat) ^ (n + 1) ≤ 2 ^ 64 := Nat.pow_le_pow_right (by omega) (by omega)
          omega
        rw [hmul, Nat.mod_eq_of_lt hlt]
        exact lor_one_pred (n + 1) (by omega)
      · have hmin : min n 64 = 64 := by omega
        have hmin2 : min (n + 1) 64 = 64 := by omega
        rw [hmin, hmin2]
        have hmul : (2 ^ 64 - 1) * 2 = 2 ^ 64 + (2 ^ 64 - 2) := by
          have : (2:Nat) ^ 64 ≥ 2 := by norm_num
          omega
        have hmod : (2 ^ 64 - 1) * 2 % 2 ^ 64 = 2 ^ 64 - 2 := by
          rw [hmul, Nat.add_mod_left]
          exact Nat.mod_eq_of_lt (by omega)
        rw [hmod]
        exact lor_one_pred 64 (by omega)

/-- The bit pattern of the mask constant at its own width is all ones. -/
theorem constBits_maskRep (w : Nat) (h1 : 0 < w) (h2 : w < 2^63) :
    constBits w (toInt64 (maskRep w)) = 2 ^ w - 1 := by
  rw [maskRep_eq w h1 h2]
  unfold toInt64 constBits
  have hw1 : (1:Nat) ≤ 2 ^ w := Nat.one_le_two_pow
  rcases Nat.lt_or_ge w 64 with h64 | h64
  · have hmin : min w 64 = w := by omega
    rw [hmin]
    have hlt : 2 ^ w - 1 < 2 ^ 63 := by
      have : (2:Nat) ^ w ≤ 2 ^ 63 := Nat.pow_le_pow_right (by omega) (by omega)
      omega
    rw [if_pos hlt]
    have hcast : ((2 ^ w - 1 : Nat) : Int) = (2:Int) ^ w - 1 := by
      push_cast [Nat.cast_sub hw1]
      ring
    rw [hcast]
    have hpos : (0:Int) < 2 ^ w := by positivity
    rw [Int.emod_eq_of_lt (by omega) (by omega)]
    omega
  · have hmin : min w 64 = 64 := by omega
    rw [hmin]
    have hge : ¬ (2 ^ 64 - 1 : Nat) < 2 ^ 63 := by norm_num
    rw [if_neg hge]
    have hcast : ((2 ^ 64 - 1 : Nat) : Int) = (2:Int) ^ 64 - 1 := by norm_num
    rw [hcast]
    have hpow : (2:Int) ^ 64 - 1 - 2 ^ 64 = -1 := by ring
    rw [hpow]
    have hpos : (0:Int) < 2 ^ w := by positivity
    have h1' : (-1 : Int) = (2 ^ w - 1) + 2 ^ w * (-1) := by ring
    rw [h1', Int.add_mul_emod_self_left, Int.emod_eq_of_lt (by omega) (by omega)]
    have hlink : ((2 ^ w - 1 : Nat) : Int) = (2:Int) ^ w - 1 := by
      push_cast [Nat.cast_sub hw1]
      ring
    omega

/-! Instructions, terminators and basic blocks. A basic block records, in
addition to the `Term` field of `ir.BasicBlock`, how many times that field
has been assigned (`NewBr` / `NewCondBr` / `NewRet` overwrite it without
checking), so that double termination is observable. -/

inductive IPred where
  | ieq
  | ine
  | slt
  | sle
  | sgt
  | sge

inductive FPred where
  | oeq

inductive BinOpK where
  | add
  | fadd
  | sub
  | fsub
  | mul
  | fmul
  | sdiv
  | fdiv
  | srem
  | frem
  | shl
  | lshr
  | land
  | lor
  | lxor

inductive InstOp where
  | binop (k : BinOpK) (x y : Value)
  | icmp (p : IPred) (x y : Value)
  | fcmp (p : FPred) (x y : Value)
  | load (src : Value)
  | call (callee : Value) (args : List Value)
  | insertvalue (agg : Value) (elem : Value) (idx : Nat)

structure Inst where
  id : Nat
  op : InstOp

inductive Term where
  | br (target : Nat)
  | condbr (cond : Option Value) (ifTrue ifFalse : Nat)
  | ret (v : Option Value)

structure Blk where
  bname : String
  insts : List Inst
  term : Option Term
  termWrites : Nat

/-- A module-level global produced by `m.NewGlobalDecl` (type only) or
`m.NewGlobalDef` (with constant initializer). -/
inductive GlobalEntry where
  | decl (name : String) (t : IRType)
  | defn (name : String) (init : Value)

def GlobalEntry.gname : GlobalEntry → String
  | .decl n _ => n
  | .defn n _ => n

/-- The mutable compilation state shared by the generator and the current
function generator: the block arena (all blocks allocated by `ir.NewBlock`
or `f.NewBlock`, indexed by allocation order), the `f.Blocks` list of the
current function, the current block cursor `fgen.cur`, a counter for fresh
instruction identifiers, the diagnostics sink, the function and global
symbol tables, and the module-level lists of functions and globals. -/
structure St where
  arena : List Blk
  fblocks : List Nat
  cur : Nat
  nextVal : Nat
  errs : List Err
  funcs : List (String × FuncSig)
  globals : List (String × IRType)
  modFuncs : List FuncSig
  modGlobals : List GlobalEntry

/-- Lookup in a symbol table (Go map read). -/
def tblGet {α : Type} : List (String × α) → String → Option α
  | [], _ => none
  | (k, v) :: r, n => if k = n then some v else tblGet r n

/-- Update in a symbol table (Go map write: replace or append). -/
def tblPut {α : Type} : List (String × α) → String → α → List (String × α)
  | [], k, v => [(k, v)]
  | (k', v') :: r, k, v => if k' = k then (k, v) :: r else (k', v') :: tblPut r k v

/-- Apply a function to the block at the given arena index. -/
def updBlk : List Blk → Nat → (Blk → Blk) → List Blk
  | [], _, _ => []
  | b :: bs, 0, f => f b :: bs
  | b :: bs, n + 1, f => b :: updBlk bs n f

/-- Report an error to the diagnostics sink (`gen.eh`). -/
def pushErr (s : St) (e : Err) : St :=
  { s with errs := s.errs ++ [e] }

/-- Mirror of `ir.NewBlock(name)`: allocate a detached block. -/
def newBlock (s : St) (nm : String) : St × Nat :=
  ({ s with arena := s.arena ++ [⟨nm, [], none, 0⟩] }, s.arena.length)

/-- Mirror of `f.NewBlock(name)`: allocate a block and append it to
`f.Blocks`. -/
def fNewBlock (s : St) (nm : String) : St × Nat :=
  let p := newBlock s nm
  ({ p.1 with fblocks := p.1.fblocks ++ [p.2] }, p.2)

/-- Mirror of `f.Blocks = append(f.Blocks, b)`. -/
def appendFBlock (s : St) (b : Nat) : St :=
  { s with fblocks := s.fblocks ++ [b] }

/-- Mirror of `fgen.cur = b`. -/
def setCur (s : St) (b : Nat) : St :=
  { s with cur := b }

/-- Append an instruction to the current block; the result value is the
instruction result with the given type. -/
def emit (s : St) (op : InstOp) (t : IRType) : St × Value :=
  ({ s with
      arena := updBlk s.arena s.cur (fun b => { b with insts := b.insts ++ [⟨s.nextVal, op⟩] }),
      nextVal := s.nextVal + 1 },
    Value.instr s.nextVal t)

/-- Assign the terminator of the block at arena index `bid`, as the llir
`NewBr` / `NewCondBr` / `NewRet` methods do: the `Term` field is
overwritten unconditionally, which the `termWrites` counter records. -/
def setTermAt (s : St) (bid : Nat) (t : Term) : St :=
  { s with
    arena := updBlk s.arena bid (fun b => { b with term := some t, termWrites := b.termWrites + 1 }) }

/-! Go expressions, as the subset of `go/ast` expression forms handled by
the expression lowerer. An integer literal carries the bit width of the
integer type assigned to it by the external type checker (`irTypeOf`). -/

inductive GoBinOp where
  | add
  | sub
  | mul
  | quo
  | rem
  | shl
  | shr
  | and
  | or
  | xor
  | andNot
  | land
  | lor
  | eql
  | neq
  | lss
  | leq
  | gtr
  | geq

inductive GoUnOp where
  | plus
  | minus
  | not
  | bnot

mutual
inductive GoExpr where
  | intLit (bits : Nat) (v : Int)
  | ident (name : String)
  | binary (op : GoBinOp) (x y : GoExpr)
  | unary (op : GoUnOp) (x : GoExpr)
  | call (fn : GoExpr) (args : GoExprList)
inductive GoExprList where
  | nil
  | cons (head : GoExpr) (tail : GoExprList)
end

/-- Expression lowering outcome: a value, or an error returned to the
caller. The state carries all side effects performed before the error. -/
inductive EOut where
  | ok (s : St) (v : Value)
  | err (s : St) (e : Err)

/-- Outcome of lowering a list of expressions. -/
inductive ELOut where
  | ok (s : St) (vs : List Value)
  | err (s : St) (e : Err)

/-- Mirror of `lowerIdentExpr`: resolve against the function table first,
then the global table; a global resolves to the (unloaded) global
reference. -/
def lowerIdentExpr (s : St) (name : String) : EOut :=
  match tblGet s.funcs name with
  | some sig => .ok s (.funcRef sig)
  | none =>
    match tblGet s.globals name with
    | some t => .ok s (.globalRef name t)
    | none => .err s (.unresolvedIdent name)

/-- The load wrap performed by `lowerExprUse` after `lowerExpr`: a value
that is a global reference (`*ir.Global`) is loaded; its content type is
the load result type. -/
def autoLoad (s : St) (v : Value) : St × Value :=
  match v with
  | .globalRef n c => emit s (.load (.globalRef n c)) c
  | v => (s, v)

/-- Result type of an `icmp` instruction: `i1`, or a vector of `i1` for
vector operands. -/
def icmpType : IRType → IRType
  | .vector n _ => .vector n (.int 1)
  | _ => .int 1

/-- Result type of a call instruction, computed from the callee type as
llir does (pointer to function type); other callee types have no
well-defined result and are modelled as void. -/
def callRetType (callee : Value) : IRType :=
  match typeOf callee with
  | .ptr (.funcT r _) => r
  | _ => .void

/-- Emit an instruction and wrap its result as a successful outcome. -/
def emitOk (s : St) (op : InstOp) (t : IRType) : EOut :=
  let p := emit s op t
  .ok p.1 p.2

/-- The operator dispatch of `lowerBinaryExpr`, applied once both operand
values have been lowered (with auto-load). `x` and `y` are the operand
values, `s3` the state after lowering them. -/
def binOpDispatch (s3 : St) (op : GoBinOp) (x y : Value) : EOut :=
  let t := typeOf x
  match op with
      | .add =>
        if isIntOrIntVectorType t then emitOk s3 (.binop .add x y) t
        else if isFloatOrFloatVectorType t then emitOk s3 (.binop .fadd x y) t
        else .err s3 .invalidOperandType
      | .sub =>
        if isIntOrIntVectorType t then emitOk s3 (.binop .sub x y) t
        else if isFloatOrFloatVectorType t then emitOk s3 (.binop .fsub x y) t
        else .err s3 .invalidOperandType
      | .mul =>
        if isIntOrIntVectorType t then emitOk s3 (.binop .mul x y) t
        else if isFloatOrFloatVectorType t then emitOk s3 (.binop .fmul x y) t
        else .err s3 .invalidOperandType
      | .quo =>
        if isIntOrIntVectorType t then emitOk s3 (.binop .sdiv x y) t
        else if isFloatOrFloatVectorType t then emitOk s3 (.binop .fdiv x y) t
        else .err s3 .invalidOperandType
      | .rem =>
        if isIntOrIntVectorType t then emitOk s3 (.binop .srem x y) t
        else if isFloatOrFloatVectorType t then emitOk s3 (.binop .frem x y) t
        else .err s3 .invalidOperandType
      | .shl =>
        if isIntOrIntVectorType t then emitOk s3 (.binop .shl x y) t
        else .err s3 .invalidOperandType
      | .shr =>
        if isIntOrIntVectorType t then emitOk s3 (.binop .lshr x y) t
        else .err s3 .invalidOperandType
      | .and =>
        if isIntOrIntVectorType t then emitOk s3 (.binop .land x y) t
        else .err s3 .invalidOperandType
      | .or =>
        if isIntOrIntVectorType t then emitOk s3 (.binop .lor x y) t
        else .err s3 .invalidOperandType
      | .xor =>
        if isIntOrIntVectorType t then emitOk s3 (.binop .lxor x y) t
        else .err s3 .invalidOperandType
      | .andNot =>
        if isIntOrIntVectorType t then
          match allOnes (typeOf y) with
          | .error e => .err s3 e
          | .ok mask =>
            let p1 := emit s3 (.binop .lxor y mask) (typeOf y)
            emitOk p1.1 (.binop .land x p1.2) t
        else .err s3 .invalidOperandType
      | .land =>
        if tyEq (typeOf x) (.int 1) then
          if tyEq (typeOf y) (.int 1) then emitOk s3 (.binop .land x y) t
          else .err s3 .invalidOperandType
        else .err s3 .invalidOperandType
      | .lor =>
        if tyEq (typeOf x) (.int 1) then
          if tyEq (typeOf y) (.int 1) then emitOk s3 (.binop .lor x y) t
          else .err s3 .invalidOperandType
        else .err s3 .invalidOperandType
      | .eql => emitOk s3 (.icmp .ieq x y) (icmpType t)
      | .neq => emitOk s3 (.icmp .ine x y) (icmpType t)
      | .lss => emitOk s3 (.icmp .slt x y) (icmpType t)
      | .leq => emitOk s3 (.icmp .sle x y) (icmpType t)
      | .gtr => emitOk s3 (.icmp .sgt x y) (icmpType t)
      | .geq => emitOk s3 (.icmp .sge x y) (icmpType t)

/-- The operator dispatch of `lowerUnaryExpr`, applied once the operand
value `x` has been lowered (with auto-load). -/
def unOpDispatch (s2 : St) (op : GoUnOp) (x : Value) : EOut :=
  let t := typeOf x
  match op with
  | .plus => .ok s2 x
  | .minus =>
    match allZeros t with
    | .error e => .err s2 e
    | .ok zero => emitOk s2 (.binop .sub zero x) (typeOf zero)
  | .not => emitOk s2 (.binop .lxor x (.const (.int 1) 1)) t
  | .bnot =>
    match allOnes t with
    | .error e => .err s2 e
    | .ok mask => emitOk s2 (.binop .lxor x mask) t

mutual
/-- Mirror of `lowerExpr` (snapshot with `lowerExprUse`): dispatch on the
expression kind. The bodies of `lowerBinaryExpr`, `lowerUnaryExpr` and
`lowerCallExpr` are transcribed in the corresponding arms; the operand
lowering of each is inlined here and the operator dispatch is factored
into `binOpDispatch` / `unOpDispatch`. Literals use the checker-assigned
integer type (`lowerBasicLit` via `irTypeOf`). -/
def lowerExpr (s : St) : GoExpr → EOut
  | .intLit bits v => .ok s (.const (.int bits) v)
  | .ident n => lowerIdentExpr s n
  | .binary op ex ey =>
    match lowerExpr s ex with
    | .err s1 e => .err s1 e
    | .ok s1 x0 =>
      let px := autoLoad s1 x0
      match lowerExpr px.1 ey with
      | .err s2 e => .err s2 e
      | .ok s2 y0 =>
        let py := autoLoad s2 y0
        binOpDispatch py.1 op px.2 py.2
  | .unary op ex =>
    match lowerExpr s ex with
    | .err s1 e => .err s1 e
    | .ok s1 x0 =>
      let px := autoLoad s1 x0
      unOpDispatch px.1 op px.2
  | .call fn args =>
    match lowerExpr s fn with
    | .err s1 e => .err s1 e
    | .ok s1 v =>
      let pc := autoLoad s1 v
      match lowerExprs pc.1 args with
      | .err s2 e => .err s2 e
      | .ok s2 vs => emitOk s2 (.call pc.2 vs) (callRetType pc.2)

/-- Mirror of `lowerExprs`: lower each expression with auto-load,
returning at the first error. -/
def lowerExprs (s : St) : GoExprList → ELOut
  | .nil => .ok s []
  | .cons e rest =>
    match lowerExpr s e with
    | .err s1 er => .err s1 er
    | .ok s1 v =>
      let p := autoLoad s1 v
      match lowerExprs p.1 rest with
      | .err s2 er => .err s2 er
      | .ok s2 vs => .ok s2 (p.2 :: vs)
end

/-- Mirror of `lowerExprUse`: lower the expression, loading the value
stored at a global variable to be ready for use. -/
def lowerExprUse (s : St) (e : GoExpr) : EOut :=
  match lowerExpr s e with
  | .err s1 er => .err s1 er
  | .ok s1 v =>
    let p := autoLoad s1 v
    .ok p.1 p.2


/-! Go statements: the subset of `go/ast` statement forms handled by the
statement lowerer (`lowerStmt`): block, expression, if, return and switch
statements. Optional nested statements are a dedicated member of the
mutual family; a switch case clause with no match list is the default
clause. -/

mutual
inductive GoStmt where
  | block (stmts : GoStmtList)
  | exprStmt (e : GoExpr)
  | ifStmt (ini : GoStmtOpt) (cond : GoExpr) (body : GoStmt) (els : GoStmtOpt)
  | ret (results : GoExprList)
  | switchStmt (ini : GoStmtOpt) (tag : Option GoExpr) (cases : GoCaseList)
inductive GoStmtOpt where
  | none
  | some (st : GoStmt)
inductive GoStmtList where
  | nil
  | cons (head : GoStmt) (tail : GoStmtList)
inductive GoCaseList where
  | nil
  | cons (clist : Option GoExprList) (body : GoStmtList) (tail : GoCaseList)
end

/-- Statement lowering outcome: the next state, or an internal invariant
violation (a Go runtime fault) that aborts processing of the unit. -/
inductive SOut where
  | next (s : St)
  | panik

/-- The terminator currently assigned to the block at arena index `i`. -/
def blkTermAt (s : St) (i : Nat) : Option Term :=
  match s.arena.get? i with
  | some b => b.term
  | none => none

/-- Outcome of `lowerEqual`: value, returned error, or a Go runtime fault
for types with no equality lowering rule. -/
inductive QOut where
  | ok (s : St) (v : Value)
  | err (s : St) (e : Err)
  | panik

/-- Mirror of `lowerEqual`: compare two values for equality, selecting an
integer or ordered-float predicate by operand type. -/
def lowerEqual (s : St) (a b : Value) : QOut :=
  if tyEq (typeOf a) (typeOf b) then
    match typeOf a with
    | .int _ =>
      let p := emit s (.icmp .ieq a b) (icmpType (typeOf a))
      .ok p.1 p.2
    | .fsingle =>
      let p := emit s (.fcmp .oeq a b) (.int 1)
      .ok p.1 p.2
    | .fdouble =>
      let p := emit s (.fcmp .oeq a b) (.int 1)
      .ok p.1 p.2
    | _ => .panik
  else .err s .typeMismatch

/-- Outcome of the comparison chain of one tagged switch case. -/
inductive TOut where
  | ok (s : St) (nextB : Nat)
  | panik

/-- The inner loop of `lowerSwitchStmt` for one case clause of a tagged
switch: for each comparison expression, compare it for equality against
the tag and emit a conditional branch to the case block or to a freshly
allocated probe block; errors are reported and the remaining comparisons
continue. -/
def tagCaseLoop (tag : Value) (caseB : Nat) (exprs : GoExprList) (s : St) (nextB : Nat) : TOut :=
  match exprs with
  | .nil => .ok s nextB
  | .cons e rest =>
    match lowerExprUse s e with
    | .err s1 er => tagCaseLoop tag caseB rest (pushErr s1 er) nextB
    | .ok s1 x =>
      match lowerEqual s1 tag x with
      | .panik => .panik
      | .err s2 er => tagCaseLoop tag caseB rest (pushErr s2 er) nextB
      | .ok s2 cond =>
        let s3 := setTermAt s2 s2.cur (.condbr (some cond) caseB nextB)
        let s4 := appendFBlock (setCur s3 nextB) nextB
        let p := newBlock s4 ""
        tagCaseLoop tag caseB rest p.1 p.2

/-- The inner loop of `lowerSwitchStmt` for one case clause of a tagless
switch: each comparison expression is an independent boolean condition,
combined with a bitwise or; errors are reported and the loop continues. -/
def noTagCaseLoop (exprs : GoExprList) (s : St) (cond : Option Value) : St × Option Value :=
  match exprs with
  | .nil => (s, cond)
  | .cons e rest =>
    match lowerExprUse s e with
    | .err s1 er => noTagCaseLoop rest (pushErr s1 er) cond
    | .ok s1 x =>
      match cond with
      | some c =>
        let p := emit s1 (.binop .lor c x) (typeOf c)
        noTagCaseLoop rest p.1 (some p.2)
      | none => noTagCaseLoop rest s1 (some x)

/-- Outcome of the dispatch pass of `lowerSwitchStmt`: the state, the case
blocks allocated for the clauses in order, and the final (dangling) probe
block. -/
inductive DispOut where
  | ok (s : St) (caseBs : List Nat) (nextB : Nat)
  | panik

/-- The dispatch pass of `lowerSwitchStmt` (first loop over the case
clauses): a clause with a match list allocates a case block and emits its
comparison chain; the default clause allocates a case block and emits an
unconditional branch to it from the current dispatch point. -/
def switchDispatch (tag : Option Value) (cases : GoCaseList) (s : St) (nextB : Nat) : DispOut :=
  match cases with
  | .nil => .ok s [] nextB
  | .cons clist _ rest =>
    match clist with
    | some exprs =>
      let p := newBlock s ""
      let caseB := p.2
      match tag with
      | some tagv =>
        match tagCaseLoop tagv caseB exprs p.1 nextB with
        | .panik => .panik
        | .ok s2 nextB2 =>
          match switchDispatch tag rest s2 nextB2 with
          | .panik => .panik
          | .ok s3 bs nb => .ok s3 (caseB :: bs) nb
      | none =>
        let q := noTagCaseLoop exprs p.1 none
        let s2 := setTermAt q.1 q.1.cur (.condbr q.2 caseB nextB)
        let s3 := appendFBlock (setCur s2 nextB) nextB
        let pn := newBlock s3 ""
        match switchDispatch tag rest pn.1 pn.2 with
        | .panik => .panik
        | .ok s4 bs nb => .ok s4 (caseB :: bs) nb
    | none =>
      let p := newBlock s ""
      let s2 := setTermAt p.1 p.1.cur (.br p.2)
      match switchDispatch tag rest s2 nextB with
      | .panik => .panik
      | .ok s3 bs nb => .ok s3 (p.2 :: bs) nb

/-- The chain of insertvalue instructions building the aggregate return
value. -/
def insertChain (s : St) (agg : Value) (i : Nat) : List Value → St × Value
  | [] => (s, agg)
  | v :: vs =>
    let p := emit s (.insertvalue agg v i) (typeOf agg)
    insertChain p.1 p.2 (i + 1) vs

/-- Modelled from the spec: `irgen.NewAggregateRet` lives in package
`irgen` of this repository, which is not among the sources here. Per the
specification, multiple results build and return the anonymous packed
struct value of the calling convention, packing all result values in
declaration order. -/
def NewAggregateRet (s : St) (results : List Value) : St :=
  let t := IRType.strukt (results.map typeOf)
  let p := insertChain s (.undef t) 0 results
  setTermAt p.1 p.1.cur (.ret (some p.2))

/-- Sequencing of a statement-lowering step: propagate a panic, otherwise
continue with the reached state. -/
def stmtStep (r : SOut) (k : St → SOut) : SOut :=
  match r with
  | .panik => .panik
  | .next s1 => k s1

/-- Sequencing of an expression lowered for its value inside a statement:
on error the error is reported and the statement is skipped (the
surrounding loop continues), otherwise continue with the value. -/
def stmtExpr (r : EOut) (k : St → Value → SOut) : SOut :=
  match r with
  | .err s1 er => .next (pushErr s1 er)
  | .ok s1 v => k s1 v

/-- Mirror of `lowerExprStmt`: lower the expression for its side effects,
report an error if it fails, and continue either way. -/
def exprDone (r : EOut) : SOut :=
  match r with
  | .err s1 er => .next (pushErr s1 er)
  | .ok s1 _ => .next s1

/-- The dispatch of `lowerReturnStmt` on the lowered result values: no
results emit `ret void`, a single result is returned directly, several
results build the packed aggregate return. -/
def retDispatch (s1 : St) (vals : List Value) : SOut :=
  match vals with
  | [] => .next (setTermAt s1 s1.cur (.ret none))
  | [v] => .next (setTermAt s1 s1.cur (.ret (some v)))
  | vs => .next (NewAggregateRet s1 vs)

/-- Mirror of `lowerReturnStmt`: lower all result expressions, report an
error if any fails, otherwise dispatch on the number of results. -/
def retLower (r : ELOut) : SOut :=
  match r with
  | .err s1 er => .next (pushErr s1 er)
  | .ok s1 vals => retDispatch s1 vals

/-- Sequencing of the switch dispatch pass: propagate a panic, otherwise
continue with the state, case-block list and dangling probe block. -/
def dispStep (r : DispOut) (k : St → List Nat → Nat → SOut) : SOut :=
  match r with
  | .panik => .panik
  | .ok s3 bs nb => k s3 bs nb

/-- The `if cur.Term == nil` guard of the statement lowerers: branch to
the given block only when the current block lacks a terminator. -/
def ensureBr (s : St) (fb : Nat) : St :=
  match blkTermAt s s.cur with
  | none => setTermAt s s.cur (.br fb)
  | some _ => s

mutual
/-- Mirror of `lowerStmt` with the bodies of `lowerBlockStmt`,
`lowerExprStmt`, `lowerIfStmt`, `lowerReturnStmt` and `lowerSwitchStmt`
transcribed in the corresponding arms. -/
def lowerStmt (s : St) : GoStmt → SOut
  | .block stmts => lowerStmtList s stmts
  | .exprStmt e => exprDone (lowerExpr s e)
  | .ifStmt ini cond body .none =>
    stmtStep (lowerStmtOpt s ini) (fun s1 =>
      stmtExpr (lowerExprUse s1 cond) (fun s2 condv =>
        let condBlock := s2.cur
        let pF := newBlock s2 ""
        let pT := fNewBlock pF.1 ""
        let s3 := setCur pT.1 pT.2
        stmtStep (lowerStmt s3 body) (fun s4 =>
          let s5 := ensureBr s4 pF.2
          let s6 := setTermAt s5 condBlock (.condbr (some condv) pT.2 pF.2)
          .next (appendFBlock (setCur s6 pF.2) pF.2))))
  | .ifStmt ini cond body (.some elsStmt) =>
    stmtStep (lowerStmtOpt s ini) (fun s1 =>
      stmtExpr (lowerExprUse s1 cond) (fun s2 condv =>
        let condBlock := s2.cur
        let pF := newBlock s2 ""
        let pT := fNewBlock pF.1 ""
        let s3 := setCur pT.1 pT.2
        stmtStep (lowerStmt s3 body) (fun s4 =>
          let s5 := ensureBr s4 pF.2
          let pE := fNewBlock s5 ""
          let s6 := setCur pE.1 pE.2
          stmtStep (lowerStmt s6 elsStmt) (fun s7 =>
            let s8 := ensureBr s7 pF.2
            let s9 := setTermAt s8 condBlock (.condbr (some condv) pT.2 pE.2)
            .next (appendFBlock (setCur s9 pF.2) pF.2)))))
  | .ret results => retLower (lowerExprs s results)
  | .switchStmt ini (some te) cases =>
    stmtStep (lowerStmtOpt s ini) (fun s1 =>
      stmtExpr (lowerExprUse s1 te) (fun s2 tagv =>
        let pN := newBlock s2 ""
        let pF := newBlock pN.1 ""
        dispStep (switchDispatch (some tagv) cases pF.1 pN.2) (fun s3 caseBs _ =>
          stmtStep (switchBodies caseBs pF.2 s3 cases) (fun s4 =>
            .next (appendFBlock (setCur s4 pF.2) pF.2)))))
  | .switchStmt ini none cases =>
    stmtStep (lowerStmtOpt s ini) (fun s1 =>
      let pN := newBlock s1 ""
      let pF := newBlock pN.1 ""
      dispStep (switchDispatch none cases pF.1 pN.2) (fun s3 caseBs _ =>
        stmtStep (switchBodies caseBs pF.2 s3 cases) (fun s4 =>
          .next (appendFBlock (setCur s4 pF.2) pF.2))))

/-- Mirror of `lowerBlockStmt` / the statement loops: lower each statement
in sequence. -/
def lowerStmtList (s : St) : GoStmtList → SOut
  | .nil => .next s
  | .cons st rest => stmtStep (lowerStmt s st) (fun s1 => lowerStmtList s1 rest)

/-- Lower an optional nested statement (the `Init` statement of an if or
switch, or the else branch). -/
def lowerStmtOpt (s : St) : GoStmtOpt → SOut
  | .none => .next s
  | .some st => lowerStmt s st

/-- The body pass of `lowerSwitchStmt` (second loop over the case
clauses): each case body is lowered into its case block; a body lacking a
terminator falls through to the shared follow block; the case block is
then appended to the function. -/
def switchBodies (caseBs : List Nat) (followB : Nat) (s : St) : GoCaseList → SOut
  | .nil => .next s
  | .cons _ body rest =>
    match caseBs with
    | [] => .panik
    | caseB :: cbs =>
      let s1 := setCur s caseB
      stmtStep (lowerStmtList s1 body) (fun s2 =>
        let s3 := ensureBr s2 followB
        let s4 := appendFBlock s3 caseB
        switchBodies cbs followB s4 rest)
end

/-- Mirror of `lowerFuncBody`: attach a fresh entry block to the function,
make it current, and lower each statement of the body. -/
def lowerFuncBody (s : St) (body : GoStmtList) : SOut :=
  let p := fNewBlock s "entry"
  lowerStmtList (setCur p.1 p.2) body

/-! Top-level declarations: function declarations (with optional receiver
list and optional body) and generic declarations containing import, type
and value specifiers. Parameter, receiver and result types are the
checker-resolved IR types (`irParams` / `irTypeOf`); a receiver entry
carries the name of its type, used for receiver folding. -/

structure FuncDecl where
  fname : String
  recv : List (String × IRType)
  params : List IRType
  results : List IRType
  body : Option GoStmtList

structure ValueSpec where
  names : List String
  typeRes : Except Err IRType
  values : List GoExpr

inductive Spec where
  | importSpec
  | typeSpec
  | valueSpec (vs : ValueSpec)

inductive GoDecl where
  | funcDecl (d : FuncDecl)
  | genDecl (specs : List Spec)

/-- The return-type switch of `indexFuncDecl` / `lowerFuncDecl`: zero
results give void, one result gives its type, several results give an
anonymous struct packing all result types in order. -/
def irRetType : List IRType → IRType
  | [] => .void
  | [t] => t
  | ts => .strukt ts

/-- Receiver folding: no receiver keeps the name and parameters; one
receiver renames `M` to `T.M` and prepends the receiver parameter;
several receivers hit the Go runtime fault (`none`). -/
def foldRecv (d : FuncDecl) : Option (String × List IRType) :=
  match d.recv with
  | [] => some (d.fname, d.params)
  | [(tn, rt)] => some (tn ++ "." ++ d.fname, rt :: d.params)
  | _ => none

/-- The function signature synthesized by `indexFuncDecl` and
`lowerFuncDecl` (both snapshots compute it by the same lines). -/
def synthSig (d : FuncDecl) : Option FuncSig :=
  match foldRecv d with
  | none => none
  | some (funcName, params) => some ⟨funcName, params, irRetType d.results⟩

/-- Outcome of indexing or lowering one declaration. -/
inductive FOut where
  | ok (s : St)
  | panik

/-- Mirror of `indexFuncDecl`: synthesize the signature, append the
scaffolding function to the module (`gen.m.NewFunc`), then either report
a duplicate symbol or register the function in the symbol table. -/
def indexFuncDecl (s : St) (d : FuncDecl) : FOut :=
  match synthSig d with
  | none => .panik
  | some f =>
    let s1 := { s with modFuncs := s.modFuncs ++ [f] }
    match tblGet s1.funcs f.name with
    | some _ => .ok (pushErr s1 (.duplicateSymbol f.name))
    | none => .ok { s1 with funcs := tblPut s1.funcs f.name f }

/-- Mirror of `indexValueSpec`: for each declared name, resolve the type
annotation (errors are reported and the name is skipped), register a
global declaration in the module and the symbol table. -/
def indexValueSpec (typeRes : Except Err IRType) (s : St) : List String → St
  | [] => s
  | name :: rest =>
    match typeRes with
    | .error e => indexValueSpec typeRes (pushErr s e) rest
    | .ok typ =>
      indexValueSpec typeRes
        { s with
          modGlobals := s.modGlobals ++ [.decl name typ],
          globals := tblPut s.globals name typ } rest

/-- Mirror of `indexGenDecl` / `indexSpec`: import and type specifiers
are handled elsewhere; value specifiers are indexed. -/
def indexGenDecl (s : St) : List Spec → St
  | [] => s
  | .importSpec :: rest => indexGenDecl s rest
  | .typeSpec :: rest => indexGenDecl s rest
  | .valueSpec vs :: rest => indexGenDecl (indexValueSpec vs.typeRes s vs.names) rest

/-- Mirror of `indexDecl`. -/
def indexDecl (s : St) : GoDecl → FOut
  | .funcDecl d => indexFuncDecl s d
  | .genDecl specs => .ok (indexGenDecl s specs)

/-- Mirror of `indexFile` / `indexPackage`: index every top-level
declaration in order. -/
def indexUnit (s : St) : List GoDecl → FOut
  | [] => .ok s
  | d :: rest =>
    match indexDecl s d with
    | .panik => .panik
    | .ok s1 => indexUnit s1 rest

/-- Mirror of `lowerFuncDecl` (snapshot that synthesizes the signature
itself): append the scaffolding function to the module, bail out on a
duplicate name, register the function, then lower the body (if present)
into a fresh block list. -/
def lowerFuncDecl (s : St) (d : FuncDecl) : FOut :=
  match synthSig d with
  | none => .panik
  | some f =>
    let s1 := { s with modFuncs := s.modFuncs ++ [f] }
    match tblGet s1.funcs f.name with
    | some _ => .ok (pushErr s1 (.duplicateSymbol f.name))
    | none =>
      let s2 := { s1 with funcs := tblPut s1.funcs f.name f }
      match d.body with
      | none => .ok s2
      | some body =>
        match lowerFuncBody { s2 with fblocks := [] } body with
        | .panik => .panik
        | .next s4 => .ok s4

/-- Go runtime faults observable in global-value lowering. -/
inductive PanicReason where
  | indexOutOfRange
  | unsupportedInit

/-- Outcome of lowering a global value specifier. -/
inductive VOut where
  | ok (s : St)
  | panik (r : PanicReason)

/-- Mirror of `lowerGlobalInitExpr`: a basic literal lowers to a constant;
any other initializer expression hits the Go runtime fault. -/
def lowerGlobalInitExpr : GoExpr → Except PanicReason Value
  | .intLit bits v => .ok (.const (.int bits) v)
  | _ => .error .unsupportedInit

/-- The loop of `lowerValueSpec` over the declared names, carrying the
running index `i`. When the initializer list is non-empty the initializer
at index `i` is read (out of range is the Go runtime fault); otherwise
the annotated type is resolved, and a resolution error is reported and
ends the specifier. Each successful iteration registers one global
definition or declaration. -/
def lvsLoop (values : List GoExpr) (typeRes : Except Err IRType) (s : St) (i : Nat) :
    List String → VOut
  | [] => .ok s
  | name :: rest =>
    if 0 < values.length then
      match values.get? i with
      | none => .panik .indexOutOfRange
      | some oldValue =>
        match lowerGlobalInitExpr oldValue with
        | .error r => .panik r
        | .ok init =>
          lvsLoop values typeRes
            { s with
              modGlobals := s.modGlobals ++ [.defn name init],
              globals := tblPut s.globals name (typeOf init) } (i + 1) rest
    else
      match typeRes with
      | .error e => .ok (pushErr s e)
      | .ok typ =>
        lvsLoop values typeRes
          { s with
            modGlobals := s.modGlobals ++ [.decl name typ],
            globals := tblPut s.globals name typ } (i + 1) rest

/-- Mirror of `lowerValueSpec`. -/
def lowerValueSpec (s : St) (vs : ValueSpec) : VOut :=
  lvsLoop vs.values vs.typeRes s 0 vs.names

/-! Small lemmas about tables and block updates, shared below. -/

theorem tblGet_tblPut {α : Type} (m : List (String × α)) (k n : String) (v : α) :
    tblGet (tblPut m k v) n = if k = n then some v else tblGet m n := by
  induction m with
  | nil =>
    by_cases h : k = n <;> simp [tblGet, tblPut, h]
  | cons p r ih =>
    obtain ⟨k', v'⟩ := p
    simp only [tblPut]
    by_cases hk : k' = k
    · subst hk
      simp only [if_pos rfl, tblGet]
      by_cases hn : k' = n
      · subst hn
        simp
      · simp [hn]
    · simp only [if_neg hk, tblGet]
      by_cases hn : k' = n
      · subst hn
        have hkn : ¬ k = k' := fun h => hk h.symm
        simp [hkn]
      · simp [hn, ih]

theorem updBlk_length (ar : List Blk) (i : Nat) (f : Blk → Blk) :
    (updBlk ar i f).length = ar.length := by
  induction ar generalizing i with
  | nil => rfl
  | cons b bs ih =>
    cases i with
    | zero => rfl
    | succ n => simp [updBlk, ih]

theorem updBlk_get_self (ar : List Blk) (i : Nat) (f : Blk → Blk) (h : i < ar.length) :
    (updBlk ar i f).get? i = (ar.get? i).map f := by
  induction ar generalizing i with
  | nil => simp at h
  | cons b bs ih =>
    cases i with
    | zero => simp [updBlk]
    | succ n =>
      simp only [updBlk, List.get?]
      exact ih n (by simpa using h)

theorem updBlk_get_ne (ar : List Blk) (i j : Nat) (f : Blk → Blk) (h : i ≠ j) :
    (updBlk ar i f).get? j = ar.get? j := by
  induction ar generalizing i j with
  | nil => rfl
  | cons b bs ih =>
    cases i with
    | zero =>
      cases j with
      | zero => exact absurd rfl h
      | succ m => rfl
    | succ n =>
      cases j with
      | zero => rfl
      | succ m =>
        simp only [updBlk, List.get?]
        exact ih n m (by omega)

/-- The instruction list of the block at arena index `i`. -/
def blkInstsAt (s : St) (i : Nat) : List Inst :=
  match s.arena.get? i with
  | some b => b.insts
  | none => []

/-- The empty generator state (`NewGenerator`). -/
def emptySt : St :=
  { arena := [], fblocks := [], cur := 0, nextVal := 0, errs := [], funcs := [],
    globals := [], modFuncs := [], modGlobals := [] }

/-- A state with one empty attached block as the current block and a
global variable `g` of type i64 in scope. -/
def testSt : St :=
  { arena := [⟨"entry", [], none, 0⟩], fblocks := [0], cur := 0, nextVal := 0,
    errs := [], funcs := [], globals := [("g", .int 64)], modFuncs := [], modGlobals := [] }

/-- A fresh per-function state with a global variable `x` of type i64 in
scope. -/
def testFuncSt : St :=
  { arena := [], fblocks := [], cur := 0, nextVal := 0,
    errs := [], funcs := [], globals := [("x", .int 64)], modFuncs := [], modGlobals := [] }

/-! Claim C5: the bit-clear lowering. The key semantic lemma: masking with
the all-ones constant and conjoining computes the bit-clear (and-not) of
the two operands, for operands in range of the width. -/

theorem land_xor_allones (w a b : Nat) (ha : a < 2 ^ w) :
    a &&& (b ^^^ (2 ^ w - 1)) = Nat.ldiff a b := by
  apply Nat.eq_of_testBit_eq
  intro i
  rw [Nat.testBit_land, Nat.testBit_xor, Nat.testBit_ldiff, Nat.testBit_two_pow_sub_one]
  by_cases hi : i < w
  · simp [hi]
  · have hlt : a < 2 ^ i := lt_of_lt_of_le ha (Nat.pow_le_pow_right (by omega) (by omega))
    have : a.testBit i = false := Nat.testBit_eq_false_of_lt hlt
    simp [this]

/-- Claim C5: for integer operands of width `w`, the instruction sequence
emitted for the `&^` operator is an xor of the right operand with the
all-ones constant of width `w` followed by an and with the left operand;
the all-ones mask built by `allOnes` has every one of its `w` bits set
(and no higher bit); and the resulting two-instruction computation
evaluates, on any `w`-bit operand values, to exactly the bit-clear
`x & ~y` (`Nat.ldiff`). For an integer vector type, the mask is the same
scalar all-ones constant broadcast to every lane. -/
theorem andNot_lowering_computes_bitclear (w : Nat) (h1 : 0 < w) (h2 : w < 2 ^ 63)
    (s : St) (x y : Value) (hx : typeOf x = .int w) (hy : typeOf y = .int w) :
    (binOpDispatch s .andNot x y =
      (let mask := Value.const (.int w) (toInt64 (maskRep w))
       let p1 := emit s (.binop .lxor y mask) (.int w)
       emitOk p1.1 (.binop .land x p1.2) (.int w))) ∧
    (∀ i, (constBits w (toInt64 (maskRep w))).testBit i = decide (i < w)) ∧
    (∀ a b : Nat, a < 2 ^ w → b < 2 ^ w →
      a &&& (b ^^^ constBits w (toInt64 (maskRep w))) = Nat.ldiff a b) ∧
    (∀ n, allOnes (.vector n (.int w)) =
      .ok (.constVec n (.const (.int w) (toInt64 (maskRep w))))) := by
  have hbits : constBits w (toInt64 (maskRep w)) = 2 ^ w - 1 := constBits_maskRep w h1 h2
  refine ⟨?_, ?_, ?_, ?_⟩
  · simp [binOpDispatch, hx, hy, isIntOrIntVectorType, allOnes, bitSize]
  · intro i
    rw [hbits, Nat.testBit_two_pow_sub_one]
  · intro a b ha hb
    rw [hbits]
    exact land_xor_allones w a b ha
  · intro n
    simp [allOnes, bitSize]

/-- Witness for C5 at width 8 with operands 5 and 3: the masked
computation yields `5 &^ 3 = 4`. -/
theorem andNot_lowering_computes_bitclear_witness :
    (5 &&& (3 ^^^ constBits 8 (toInt64 (maskRep 8)))) = Nat.ldiff 5 3 ∧
    (5 &&& (3 ^^^ constBits 8 (toInt64 (maskRep 8)))) = 4 :=
  ⟨(andNot_lowering_computes_bitclear 8 (by norm_num) (by norm_num)
      { arena := [], fblocks := [], cur := 0, nextVal := 0, errs := [], funcs := [],
        globals := [], modFuncs := [], modGlobals := [] }
      (.const (.int 8) 5) (.const (.int 8) 3) rfl rfl).2.2.1 5 3 (by norm_num) (by norm_num),
   by decide⟩

/-! Claim C6: the basic-type lowering. -/

/-- Go primitive (basic) kinds, as in `go/types`. -/
inductive GoBasicKind where
  | invalid
  | bool
  | int
  | uint
  | int8
  | uint8
  | int16
  | uint16
  | int32
  | uint32
  | int64
  | uint64
  | uintptr
  | float32
  | float64
  | complex64
  | complex128
  | string
  | unsafePointer
  | untypedBool
  | untypedInt
  | untypedRune
  | untypedFloat
  | untypedComplex
  | untypedString
  | untypedNil

/-- CPU word size in number of bits. -/
def cpuWordSize : Nat := 64

/-- Outcome of `irBasicType`: the (possibly updated) type-definition table
and the IR type, or the Go runtime fault of the default branch. -/
inductive BOut where
  | ok (typeDefs : List (String × IRType)) (t : IRType)
  | panik

/-- Mirror of `irBasicType`: the fixed mapping from Go basic kinds to IR
types. Untyped kinds register a named type definition on first use; the
kind with no case (`Invalid`) hits the Go runtime fault of the default
branch. -/
def irBasicType (td : List (String × IRType)) : GoBasicKind → BOut
  | .bool => .ok td (.int 1)
  | .int => .ok td (.int cpuWordSize)
  | .uint => .ok td (.int cpuWordSize)
  | .int8 => .ok td (.int 8)
  | .uint8 => .ok td (.int 8)
  | .int16 => .ok td (.int 16)
  | .uint16 => .ok td (.int 16)
  | .int32 => .ok td (.int 32)
  | .uint32 => .ok td (.int 32)
  | .int64 => .ok td (.int 64)
  | .uint64 => .ok td (.int 64)
  | .uintptr => .ok td (.int cpuWordSize)
  | .float32 => .ok td .fsingle
  | .float64 => .ok td .fdouble
  | .complex64 => .ok td (.strukt [.fsingle, .fsingle])
  | .complex128 => .ok td (.strukt [.fdouble, .fdouble])
  | .string => .ok td (.strukt [.ptr (.int 8), .int 64])
  | .unsafePointer => .ok td (.int cpuWordSize)
  | .untypedBool => .ok td (.int 1)
  | .untypedInt => .ok (tblPut td "untyped_int" (.int 64)) (.int 64)
  | .untypedRune => .ok (tblPut td "untyped_rune" (.int 32)) (.int 32)
  | .untypedFloat => .ok (tblPut td "untyped_float" .fdouble) .fdouble
  | .untypedComplex =>
    .ok (tblPut td "untyped_complex" (.strukt [.fdouble, .fdouble])) (.strukt [.fdouble, .fdouble])
  | .untypedString =>
    .ok (tblPut td "untyped_string" (.strukt [.ptr (.int 8), .int 64]))
      (.strukt [.ptr (.int 8), .int 64])
  | .untypedNil => .ok (tblPut td "untyped_nil" (.ptr (.int 8))) (.ptr (.int 8))
  | .invalid => .panik

/-- Counterexample for C6: the one basic kind outside the supported set
(`Invalid`) does not fail with a reportable UnsupportedType diagnostic
confined to the enclosing declaration — it hits the Go runtime fault of
the default branch (`irBasicType` has no error-reporting path at all),
which aborts compilation of the unit. -/
theorem irBasicType_invalid_is_fault : irBasicType [] GoBasicKind.invalid = BOut.panik := rfl

/-- Amended C6: the basic-type lowering maps each supported primitive kind
to exactly the fixed representation listed in the specification; the one
primitive kind outside the supported set (`Invalid`) hits a Go runtime
fault (aborting the unit) rather than reporting an UnsupportedType error.
The type-definition table is untouched by the supported non-untyped
kinds. -/
theorem irBasicType_fixed_mapping (td : List (String × IRType)) :
    irBasicType td .bool = .ok td (.int 1) ∧
    irBasicType td .int = .ok td (.int 64) ∧
    irBasicType td .uint = .ok td (.int 64) ∧
    irBasicType td .uintptr = .ok td (.int 64) ∧
    irBasicType td .unsafePointer = .ok td (.int 64) ∧
    irBasicType td .int8 = .ok td (.int 8) ∧
    irBasicType td .uint8 = .ok td (.int 8) ∧
    irBasicType td .int16 = .ok td (.int 16) ∧
    irBasicType td .uint16 = .ok td (.int 16) ∧
    irBasicType td .int32 = .ok td (.int 32) ∧
    irBasicType td .uint32 = .ok td (.int 32) ∧
    irBasicType td .int64 = .ok td (.int 64) ∧
    irBasicType td .uint64 = .ok td (.int 64) ∧
    irBasicType td .float32 = .ok td .fsingle ∧
    irBasicType td .float64 = .ok td .fdouble ∧
    irBasicType td .complex64 = .ok td (.strukt [.fsingle, .fsingle]) ∧
    irBasicType td .complex128 = .ok td (.strukt [.fdouble, .fdouble]) ∧
    irBasicType td .string = .ok td (.strukt [.ptr (.int 8), .int 64]) ∧
    irBasicType td .invalid = .panik :=
  ⟨rfl, rfl, rfl, rfl, rfl, rfl, rfl, rfl, rfl, rfl, rfl, rfl, rfl, rfl, rfl, rfl, rfl, rfl, rfl⟩

/-- Witness for the amended C6 at the empty type-definition table. -/
theorem irBasicType_fixed_mapping_witness :
    irBasicType [] .bool = .ok [] (.int 1) ∧ irBasicType [] .invalid = .panik :=
  ⟨(irBasicType_fixed_mapping []).1, (irBasicType_fixed_mapping []).2.2.2.2.2.2.2.2.2.2.2.2.2.2.2.2.2.2⟩

/-! Claim C3: duplicate function declarations. -/

/-- Amended C3: indexing a unit with two function declarations that fold
to the same name reports exactly one duplicate-symbol error, retains the
first signature in the symbol table and does not enter the second there;
the scaffolding function of the second declaration is nevertheless
appended to the module function list (both appends happen before the
duplicate check). -/
theorem index_duplicate_keeps_first (s : St) (d1 d2 : FuncDecl) (f1 f2 : FuncSig)
    (h1 : synthSig d1 = some f1) (h2 : synthSig d2 = some f2)
    (hname : f2.name = f1.name) (habs : tblGet s.funcs f1.name = none) :
    indexUnit s [.funcDecl d1, .funcDecl d2] =
      .ok { s with
            modFuncs := s.modFuncs ++ [f1, f2],
            funcs := tblPut s.funcs f1.name f1,
            errs := s.errs ++ [.duplicateSymbol f2.name] } := by
  simp only [indexUnit, indexDecl, indexFuncDecl, h1, h2, habs]
  rw [hname, tblGet_tblPut]
  simp [pushErr]

def dupDeclA : FuncDecl := ⟨"f", [], [.int 64], [], none⟩

def dupDeclB : FuncDecl := ⟨"f", [], [], [.int 1], none⟩

/-- Counterexample for C3 as stated: after indexing two declarations of
`f`, the module function list holds the scaffolding of both definitions
(two entries named `f`), so output of the second definition is
registered in the module even though the symbol table keeps the first. -/
theorem index_duplicate_counterexample :
    indexUnit emptySt [.funcDecl dupDeclA, .funcDecl dupDeclB] =
      .ok { emptySt with
            modFuncs := [⟨"f", [.int 64], .void⟩, ⟨"f", [], .int 1⟩],
            funcs := [("f", ⟨"f", [.int 64], .void⟩)],
            errs := [.duplicateSymbol "f"] } := rfl

/-- Witness for the amended C3 at two concrete declarations of `f`. -/
theorem index_duplicate_keeps_first_witness :
    indexUnit emptySt [.funcDecl dupDeclA, .funcDecl dupDeclB] =
      .ok { emptySt with
            modFuncs := emptySt.modFuncs ++ [⟨"f", [.int 64], .void⟩, ⟨"f", [], .int 1⟩],
            funcs := tblPut emptySt.funcs "f" ⟨"f", [.int 64], .void⟩,
            errs := emptySt.errs ++ [.duplicateSymbol "f"] } :=
  index_duplicate_keeps_first emptySt dupDeclA dupDeclB _ _ rfl rfl rfl rfl

/-! Claim C2: multi-result return packing. -/

theorem insertChain_state (vs : List Value) :
    ∀ (s : St) (agg : Value) (i : Nat),
      (insertChain s agg i vs).1.cur = s.cur ∧
      (insertChain s agg i vs).1.arena.length = s.arena.length ∧
      typeOf (insertChain s agg i vs).2 = typeOf agg := by
  induction vs with
  | nil => intro s agg i; exact ⟨rfl, rfl, rfl⟩
  | cons v r ih =>
    intro s agg i
    simp only [insertChain]
    obtain ⟨hcur, hlen, hty⟩ := ih (emit s (.insertvalue agg v i) (typeOf agg)).1
      (emit s (.insertvalue agg v i) (typeOf agg)).2 (i + 1)
    refine ⟨hcur.trans rfl, ?_, hty.trans rfl⟩
    rw [hlen]
    simp [emit, updBlk_length]

theorem blkTermAt_setTermAt_self (s : St) (i : Nat) (t : Term) (h : i < s.arena.length) :
    blkTermAt (setTermAt s i t) i = some t := by
  unfold blkTermAt setTermAt
  simp only [updBlk_get_self _ _ _ h]
  cases hq : s.arena.get? i with
  | none =>
    rw [List.get?_eq_none] at hq
    omega
  | some b => simp

/-- Claim C2: the synthesized return type is void for zero results, the
single type for one, and the anonymous struct of all result types in
order otherwise; the signature synthesized for an indexed declaration has
exactly that return type; and lowering a return statement with several
results reduces to building the packed aggregate, whose returned value
has exactly the packed struct type of the declared results. -/
theorem return_packing (d : FuncDecl) (f : FuncSig) (hf : synthSig d = some f) :
    irRetType [] = .void ∧
    (∀ t, irRetType [t] = t) ∧
    (∀ ts, 2 ≤ ts.length → irRetType ts = .strukt ts) ∧
    f.ret = irRetType d.results ∧
    (∀ (s s1 : St) (results : GoExprList) (vals : List Value),
      lowerExprs s results = .ok s1 vals → 2 ≤ vals.length →
      lowerStmt s (.ret results) = .next (NewAggregateRet s1 vals)) ∧
    (∀ (s : St) (vals : List Value), s.cur < s.arena.length →
      vals.map typeOf = d.results →
      ∃ v, blkTermAt (NewAggregateRet s vals) s.cur = some (.ret (some v)) ∧
        typeOf v = .strukt d.results) := by
  refine ⟨rfl, fun t => rfl, ?_, ?_, ?_, ?_⟩
  · intro ts h
    match ts with
    | [] => simp at h
    | [t] => simp at h
    | a :: b :: r => rfl
  · unfold synthSig at hf
    cases hfr : foldRecv d with
    | none => rw [hfr] at hf; cases hf
    | some p =>
      rw [hfr] at hf
      cases hf
      rfl
  · intro s s1 results vals hres hlen
    have hunf : lowerStmt s (.ret results) = retLower (lowerExprs s results) := rfl
    rw [hunf, hres]
    match vals, hlen with
    | a :: b :: r, _ => rfl
  · intro s vals hcur hty
    obtain ⟨hc, hl, ht⟩ := insertChain_state vals s (.undef (.strukt (vals.map typeOf))) 0
    refine ⟨(insertChain s (.undef (.strukt (vals.map typeOf))) 0 vals).2, ?_, ?_⟩
    · unfold NewAggregateRet
      rw [← hc]
      exact blkTermAt_setTermAt_self _ _ _ (by rw [hc, hl]; exact hcur)
    · rw [ht]
      simp [typeOf, hty]

def twoResultDecl : FuncDecl := ⟨"pair", [], [], [.int 8, .int 1], none⟩

/-- Witness for C2 at a function with two results of types i8 and i1. -/
theorem return_packing_witness :
    irRetType [.int 8, .int 1] = .strukt [.int 8, .int 1] ∧
    (∃ v, blkTermAt
        (NewAggregateRet testSt [.const (.int 8) 1, .const (.int 1) 0]) testSt.cur =
        some (.ret (some v)) ∧
      typeOf v = .strukt [.int 8, .int 1]) := by
  constructor
  · exact (return_packing twoResultDecl ⟨"pair", [], .strukt [.int 8, .int 1]⟩ rfl).2.2.1
      [.int 8, .int 1] (by norm_num)
  · have h : testSt.cur < testSt.arena.length := by decide
    exact (return_packing twoResultDecl ⟨"pair", [], .strukt [.int 8, .int 1]⟩ rfl).2.2.2.2.2
      testSt [.const (.int 8) 1, .const (.int 1) 0] h rfl


/-! Claim C10: global value-specifier lowering safety. -/

theorem lowerGlobalInitExpr_error_reason (e : GoExpr) (r : PanicReason)
    (h : lowerGlobalInitExpr e = .error r) : r = .unsupportedInit := by
  cases e <;> simp_all [lowerGlobalInitExpr]

theorem lvsLoop_no_oob (values : List GoExpr) (typeRes : Except Err IRType) :
    ∀ (names : List String) (s : St) (i : Nat),
      (values = [] ∨ names.length + i ≤ values.length) →
      lvsLoop values typeRes s i names ≠ .panik .indexOutOfRange := by
  intro names
  induction names with
  | nil =>
    intro s i _
    simp [lvsLoop]
  | cons name rest ih =>
    intro s i h
    simp only [lvsLoop]
    by_cases hv : 0 < values.length
    · rw [if_pos hv]
      have hi : i < values.length := by
        rcases h with h | h
        · subst h
          simp at hv
        · simp only [List.length_cons] at h
          omega
      cases hq : values.get? i with
      | none =>
        rw [List.get?_eq_none] at hq
        omega
      | some v =>
        dsimp only
        cases hle : lowerGlobalInitExpr v with
        | error r =>
          have hr := lowerGlobalInitExpr_error_reason v r hle
          subst hr
          intro hcontra
          simp at hcontra
        | ok init =>
          apply ih
          right
          rcases h with h | h
          · subst h
            simp at hv
          · simp only [List.length_cons] at h
            omega
    · rw [if_neg hv]
      have hnil : values = [] := by
        cases values with
        | nil => rfl
        | cons a r => simp at hv
      cases typeRes with
      | error e => simp
      | ok typ =>
        apply ih
        left
        exact hnil

theorem regOnce_step (base : List GlobalEntry) (fl : List GlobalEntry)
    (entry : GlobalEntry) (rest : List String) (n name : String)
    (hg : entry.gname = name)
    (hrec : (fl.filter (fun g => g.gname == n)).length ≤
      ((base ++ [entry]).filter (fun g => g.gname == n)).length + rest.count n) :
    (fl.filter (fun g => g.gname == n)).length ≤
      (base.filter (fun g => g.gname == n)).length + (name :: rest).count n := by
  rw [List.count_cons]
  rw [List.filter_append, List.length_append] at hrec
  have hx : ([entry].filter (fun g => g.gname == n)).length = if name = n then 1 else 0 := by
    by_cases hnn : name = n
    · subst hnn
      simp [List.filter_cons, hg]
    · simp [List.filter_cons, hg, hnn]
  rw [hx] at hrec
  by_cases hnn : name = n
  · subst hnn
    simp at hrec ⊢
    omega
  · have hne : (name == n) = false := by
      simp only [beq_eq_false_iff_ne, ne_eq]
      exact hnn
    rw [if_neg hnn] at hrec
    simp only [hne, Bool.false_eq_true, if_false]
    omega

theorem lvsLoop_reg_once (values : List GoExpr) (typeRes : Except Err IRType) (n : String) :
    ∀ (names : List String) (s : St) (i : Nat) (s' : St),
      lvsLoop values typeRes s i names = .ok s' →
      (s'.modGlobals.filter (fun g => g.gname == n)).length ≤
        (s.modGlobals.filter (fun g => g.gname == n)).length + names.count n := by
  intro names
  induction names with
  | nil =>
    intro s i s' h
    simp only [lvsLoop] at h
    cases h
    simp
  | cons name rest ih =>
    intro s i s' h
    simp only [lvsLoop] at h
    by_cases hv : 0 < values.length
    · rw [if_pos hv] at h
      cases hq : values.get? i with
      | none =>
        rw [hq] at h
        cases h
      | some v =>
        rw [hq] at h
        dsimp only at h
        cases hle : lowerGlobalInitExpr v with
        | error r =>
          rw [hle] at h
          cases h
        | ok init =>
          rw [hle] at h
          dsimp only at h
          have hrec := ih _ _ _ h
          exact regOnce_step s.modGlobals s'.modGlobals (.defn name init) rest n name rfl hrec
    · rw [if_neg hv] at h
      cases typeRes with
      | error e =>
        cases h
        simp only [pushErr]
        omega
      | ok typ =>
        dsimp only at h
        have hrec := ih _ _ _ h
        exact regOnce_step s.modGlobals s'.modGlobals (.decl name typ) rest n name rfl hrec

/-- Claim C10: whenever the initializer list of a global value specifier
is non-empty, the initializer at the running name index is read; under
the precondition that the list is empty or at least as long as the name
list, the out-of-range branch is unreachable, and each name adds at most
`count` registrations (at most one per distinct name) to the module
global list; the two-names-one-initializer specifier violates the
precondition and indeed reaches the out-of-range fault. -/
theorem value_spec_index_safety :
    (∀ (s : St) (names : List String) (values : List GoExpr) (typeRes : Except Err IRType),
      (values = [] ∨ names.length ≤ values.length) →
      lowerValueSpec s ⟨names, typeRes, values⟩ ≠ .panik .indexOutOfRange ∧
      (∀ (n : String) (s' : St), lowerValueSpec s ⟨names, typeRes, values⟩ = .ok s' →
        (s'.modGlobals.filter (fun g => g.gname == n)).length ≤
          (s.modGlobals.filter (fun g => g.gname == n)).length + names.count n)) ∧
    lowerValueSpec emptySt ⟨["a", "b"], .ok (.int 64), [.intLit 64 1]⟩ =
      .panik .indexOutOfRange := by
  constructor
  · intro s names values typeRes h
    constructor
    · show lvsLoop values typeRes s 0 names ≠ .panik .indexOutOfRange
      apply lvsLoop_no_oob
      rcases h with h | h
      · left
        exact h
      · right
        omega
    · intro n s' h'
      exact lvsLoop_reg_once values typeRes n names s 0 s' h'
  · rfl

/-- Witness for C10: a specifier with as many initializers as names does
not reach the out-of-range fault, and registers each of its two distinct
names at most once. -/
theorem value_spec_index_safety_witness :
    lowerValueSpec emptySt ⟨["a", "b"], .ok (.int 64), [.intLit 64 1, .intLit 64 2]⟩ ≠
      .panik .indexOutOfRange :=
  (value_spec_index_safety.1 emptySt ["a", "b"] [.intLit 64 1, .intLit 64 2]
    (.ok (.int 64)) (Or.inr (by norm_num))).1

/-! Claim C9: eager lowering of the logical operators. -/

theorem tyEq_int_one (t : IRType) : tyEq t (.int 1) = true ↔ t = .int 1 := by
  cases t <;> simp [tyEq]

/-- The bitwise instruction selected for a logical operator. -/
def logicalOpK : GoBinOp → BinOpK
  | .lor => .lor
  | _ => .land

/-- Claim C9: for a binary expression with operator `&&` or `||`, both
operands are lowered before the operator is examined (their side effects
are in the dispatch state even when the operator then fails), the
dispatch errors with an invalid-operand-type error unless both operand
types are the 1-bit boolean type, and otherwise emits exactly one bitwise
and / or instruction on the two operand values. -/
theorem logical_ops_eager (s s1 sx s2 s3 : St) (ex ey : GoExpr) (op : GoBinOp)
    (x0 y0 x y : Value)
    (hop : op = .land ∨ op = .lor)
    (hx : lowerExpr s ex = .ok s1 x0)
    (hax : autoLoad s1 x0 = (sx, x))
    (hy : lowerExpr sx ey = .ok s2 y0)
    (hay : autoLoad s2 y0 = (s3, y)) :
    lowerExpr s (.binary op ex ey) = binOpDispatch s3 op x y ∧
    (typeOf x = .int 1 → typeOf y = .int 1 →
      binOpDispatch s3 op x y = emitOk s3 (.binop (logicalOpK op) x y) (typeOf x)) ∧
    (¬ (typeOf x = .int 1 ∧ typeOf y = .int 1) →
      binOpDispatch s3 op x y = .err s3 .invalidOperandType) := by
  refine ⟨?_, ?_, ?_⟩
  · have hunf : lowerExpr s (.binary op ex ey) =
        (match lowerExpr s ex with
         | .err sa e => .err sa e
         | .ok sa xv =>
           let px := autoLoad sa xv
           match lowerExpr px.1 ey with
           | .err sb e => .err sb e
           | .ok sb yv =>
             let py := autoLoad sb yv
             binOpDispatch py.1 op px.2 py.2) := rfl
    rw [hunf, hx]
    dsimp only
    rw [hax]
    dsimp only
    rw [hy]
    dsimp only
    rw [hay]
  · intro htx hty
    have hbx : tyEq (typeOf x) (.int 1) = true := (tyEq_int_one _).mpr htx
    have hby : tyEq (typeOf y) (.int 1) = true := (tyEq_int_one _).mpr hty
    rcases hop with h | h <;> subst h <;>
      simp [binOpDispatch, hbx, hby, logicalOpK]
  · intro hnot
    by_cases htx : typeOf x = .int 1
    · by_cases hty : typeOf y = .int 1
      · exact absurd ⟨htx, hty⟩ hnot
      · have hbx : tyEq (typeOf x) (.int 1) = true := (tyEq_int_one _).mpr htx
        have hby : tyEq (typeOf y) (.int 1) = false := by
          cases hb : tyEq (typeOf y) (.int 1)
          · rfl
          · exact absurd ((tyEq_int_one _).mp hb) hty
        rcases hop with h | h <;> subst h <;> simp [binOpDispatch, hbx, hby]
    · have hbx : tyEq (typeOf x) (.int 1) = false := by
        cases hb : tyEq (typeOf x) (.int 1)
        · rfl
        · exact absurd ((tyEq_int_one _).mp hb) htx
      rcases hop with h | h <;> subst h <;> simp [binOpDispatch, hbx]

/-- Witness for C9 at the boolean literals true and false. -/
theorem logical_ops_eager_witness :
    lowerExpr emptySt (.binary .land (.intLit 1 1) (.intLit 1 0)) =
      binOpDispatch emptySt .land (.const (.int 1) 1) (.const (.int 1) 0) ∧
    (typeOf (Value.const (.int 1) 1) = .int 1 → typeOf (Value.const (.int 1) 0) = .int 1 →
      binOpDispatch emptySt .land (.const (.int 1) 1) (.const (.int 1) 0) =
        emitOk emptySt (.binop (logicalOpK .land) (.const (.int 1) 1) (.const (.int 1) 0))
          (typeOf (Value.const (.int 1) 1))) ∧
    (¬ (typeOf (Value.const (.int 1) 1) = .int 1 ∧ typeOf (Value.const (.int 1) 0) = .int 1) →
      binOpDispatch emptySt .land (.const (.int 1) 1) (.const (.int 1) 0) =
        .err emptySt .invalidOperandType) :=
  logical_ops_eager emptySt emptySt emptySt emptySt emptySt (.intLit 1 1) (.intLit 1 0) .land
    (.const (.int 1) 1) (.const (.int 1) 0) (.const (.int 1) 1) (.const (.int 1) 0)
    (Or.inl rfl) rfl rfl rfl rfl

/-! Claim C4: call lowering and global auto-load. -/

/-- Counterexample for C4 as stated: a global variable used as the callee
of a call expression IS wrapped in a load instruction, because
`lowerCallExpr` lowers the callee through `lowerExprUse`. The emitted
block holds a load of the global followed by a call whose callee is the
load result. -/
theorem call_callee_autoload_counterexample :
    (match lowerExpr testSt (.call (.ident "g") .nil) with
     | .ok s _ => (blkInstsAt s 0).map Inst.op =
         [.load (.globalRef "g" (.int 64)), .call (.instr 0 (.int 64)) []]
     | .err _ _ => False) := rfl

/-- Amended C4: the callee of a call is lowered through the same
value-use path as any operand, so a callee resolving to a function symbol
is passed by reference with no load, while a callee resolving to a global
variable is materialized through a load (see the counterexample); every
argument in value position that resolves to a global variable is
materialized through exactly one load instruction before being passed. -/
theorem call_lowering_autoload (s : St) (fname gname : String) (sig : FuncSig) (t : IRType)
    (args rest : GoExprList) (s2 : St) (vs : List Value)
    (hf : tblGet s.funcs fname = some sig)
    (hargs : lowerExprs s args = .ok s2 vs)
    (hg1 : tblGet s.funcs gname = none)
    (hg2 : tblGet s.globals gname = some t) :
    lowerExpr s (.call (.ident fname) args) =
      emitOk s2 (.call (.funcRef sig) vs) (callRetType (.funcRef sig)) ∧
    lowerExprUse s (.ident gname) =
      .ok (emit s (.load (.globalRef gname t)) t).1 (.instr s.nextVal t) ∧
    lowerExprs s (.cons (.ident gname) rest) =
      (match lowerExprs (emit s (.load (.globalRef gname t)) t).1 rest with
       | .err se er => .err se er
       | .ok se vs2 => .ok se (.instr s.nextVal t :: vs2)) := by
  have hidf : lowerExpr s (.ident fname) = .ok s (.funcRef sig) := by
    show lowerIdentExpr s fname = .ok s (.funcRef sig)
    simp [lowerIdentExpr, hf]
  have hidg : lowerExpr s (.ident gname) = .ok s (.globalRef gname t) := by
    show lowerIdentExpr s gname = .ok s (.globalRef gname t)
    simp [lowerIdentExpr, hg1, hg2]
  refine ⟨?_, ?_, ?_⟩
  · have hunf : lowerExpr s (.call (.ident fname) args) =
        (match lowerExpr s (.ident fname) with
         | .err sa e => .err sa e
         | .ok sa v =>
           let pc := autoLoad sa v
           match lowerExprs pc.1 args with
           | .err sb e => .err sb e
           | .ok sb vls => emitOk sb (.call pc.2 vls) (callRetType pc.2)) := rfl
    rw [hunf, hidf]
    dsimp only [autoLoad]
    rw [hargs]
  · unfold lowerExprUse
    rw [hidg]
    dsimp only [autoLoad]
    rfl
  · have hunf : lowerExprs s (.cons (.ident gname) rest) =
        (match lowerExpr s (.ident gname) with
         | .err sa er => .err sa er
         | .ok sa v =>
           let p := autoLoad sa v
           match lowerExprs p.1 rest with
           | .err sb er => .err sb er
           | .ok sb vs2 => .ok sb (p.2 :: vs2)) := rfl
    rw [hunf, hidg]
    dsimp only [autoLoad]
    rfl

/-- A state with a function `f` and a global `g` in scope. -/
def testSt2 : St := { testSt with funcs := [("f", ⟨"f", [], .void⟩)] }

/-- Witness for the amended C4: calling `f` with argument `g` loads the
global argument exactly once and passes the function by reference. -/
theorem call_lowering_autoload_witness :
    lowerExpr testSt2 (.call (.ident "f") (.cons (.ident "g") .nil)) =
      emitOk (emit testSt2 (.load (.globalRef "g" (.int 64))) (.int 64)).1
        (.call (.funcRef ⟨"f", [], .void⟩) [.instr 0 (.int 64)])
        (callRetType (.funcRef ⟨"f", [], .void⟩)) :=
  (call_lowering_autoload testSt2 "f" "g" ⟨"f", [], .void⟩ (.int 64)
    (.cons (.ident "g") .nil) .nil
    (emit testSt2 (.load (.globalRef "g" (.int 64))) (.int 64)).1
    [.instr 0 (.int 64)] rfl rfl rfl rfl).1

/-! Claims C8 and C1: declaration atomicity and the terminator invariant.
First: statement and expression lowering never touch the symbol tables or
the module lists (frame lemmas). -/

/-- The state carried by an expression outcome. -/
def EOut.st : EOut → St
  | .ok s _ => s
  | .err s _ => s

/-- The state carried by an expression-list outcome. -/
def ELOut.st : ELOut → St
  | .ok s _ => s
  | .err s _ => s

/-- The symbol tables and module lists of `s2` agree with `s1`. -/
def tblFrame (s1 s2 : St) : Prop :=
  s2.funcs = s1.funcs ∧ s2.globals = s1.globals ∧
  s2.modFuncs = s1.modFuncs ∧ s2.modGlobals = s1.modGlobals

theorem tblFrame_refl (s : St) : tblFrame s s := ⟨rfl, rfl, rfl, rfl⟩

theorem tblFrame_trans {a b c : St} (h1 : tblFrame a b) (h2 : tblFrame b c) :
    tblFrame a c :=
  ⟨h2.1.trans h1.1, h2.2.1.trans h1.2.1, h2.2.2.1.trans h1.2.2.1, h2.2.2.2.trans h1.2.2.2⟩

theorem emit_frame (s : St) (op : InstOp) (t : IRType) : tblFrame s (emit s op t).1 :=
  ⟨rfl, rfl, rfl, rfl⟩

theorem pushErr_frame (s : St) (e : Err) : tblFrame s (pushErr s e) := ⟨rfl, rfl, rfl, rfl⟩

theorem autoLoad_frame (s : St) (v : Value) : tblFrame s (autoLoad s v).1 := by
  cases v <;> exact ⟨rfl, rfl, rfl, rfl⟩

theorem binOpDispatch_frame (s : St) (op : GoBinOp) (x y : Value) :
    tblFrame s (binOpDispatch s op x y).st := by
  cases op <;> dsimp only [binOpDispatch] <;> (repeat' split) <;>
    exact ⟨rfl, rfl, rfl, rfl⟩

theorem unOpDispatch_frame (s : St) (op : GoUnOp) (x : Value) :
    tblFrame s (unOpDispatch s op x).st := by
  cases op <;> dsimp only [unOpDispatch] <;> (repeat' split) <;>
    exact ⟨rfl, rfl, rfl, rfl⟩

mutual
theorem lowerExpr_frame (s : St) (e : GoExpr) : tblFrame s (lowerExpr s e).st := by
  cases e with
  | intLit b v => exact tblFrame_refl s
  | ident n =>
    show tblFrame s (lowerIdentExpr s n).st
    unfold lowerIdentExpr
    cases tblGet s.funcs n
    · cases tblGet s.globals n
      · exact tblFrame_refl s
      · exact tblFrame_refl s
    · exact tblFrame_refl s
  | binary op ex ey =>
    have h1 := lowerExpr_frame s ex
    show tblFrame s
      (match lowerExpr s ex with
       | .err sa e => EOut.err sa e
       | .ok sa xv =>
         let px := autoLoad sa xv
         match lowerExpr px.1 ey with
         | .err sb e => EOut.err sb e
         | .ok sb yv =>
           let py := autoLoad sb yv
           binOpDispatch py.1 op px.2 py.2).st
    cases hx : lowerExpr s ex with
    | err sa e =>
      rw [hx] at h1
      exact h1
    | ok sa xv =>
      rw [hx] at h1
      have h2 := autoLoad_frame sa xv
      have h3 := lowerExpr_frame (autoLoad sa xv).1 ey
      dsimp only
      cases hy : lowerExpr (autoLoad sa xv).1 ey with
      | err sb e =>
        rw [hy] at h3
        exact tblFrame_trans h1 (tblFrame_trans h2 h3)
      | ok sb yv =>
        rw [hy] at h3
        have h4 := autoLoad_frame sb yv
        have h5 := binOpDispatch_frame (autoLoad sb yv).1 op (autoLoad sa xv).2 (autoLoad sb yv).2
        exact tblFrame_trans h1 (tblFrame_trans h2 (tblFrame_trans h3 (tblFrame_trans h4 h5)))
  | unary op ex =>
    have h1 := lowerExpr_frame s ex
    show tblFrame s
      (match lowerExpr s ex with
       | .err sa e => EOut.err sa e
       | .ok sa xv =>
         let px := autoLoad sa xv
         unOpDispatch px.1 op px.2).st
    cases hx : lowerExpr s ex with
    | err sa e =>
      rw [hx] at h1
      exact h1
    | ok sa xv =>
      rw [hx] at h1
      have h2 := autoLoad_frame sa xv
      have h5 := unOpDispatch_frame (autoLoad sa xv).1 op (autoLoad sa xv).2
      exact tblFrame_trans h1 (tblFrame_trans h2 h5)
  | call fn args =>
    have h1 := lowerExpr_frame s fn
    show tblFrame s
      (match lowerExpr s fn with
       | .err sa e => EOut.err sa e
       | .ok sa v =>
         let pc := autoLoad sa v
         match lowerExprs pc.1 args with
         | .err sb e => EOut.err sb e
         | .ok sb vls => emitOk sb (.call pc.2 vls) (callRetType pc.2)).st
    cases hx : lowerExpr s fn with
    | err sa e =>
      rw [hx] at h1
      exact h1
    | ok sa v =>
      rw [hx] at h1
      have h2 := autoLoad_frame sa v
      have h3 := lowerExprs_frame (autoLoad sa v).1 args
      dsimp only
      cases hy : lowerExprs (autoLoad sa v).1 args with
      | err sb e =>
        rw [hy] at h3
        exact tblFrame_trans h1 (tblFrame_trans h2 h3)
      | ok sb vls =>
        rw [hy] at h3
        have h4 := emit_frame sb (.call (autoLoad sa v).2 vls) (callRetType (autoLoad sa v).2)
        exact tblFrame_trans h1 (tblFrame_trans h2 (tblFrame_trans h3 h4))

theorem lowerExprs_frame (s : St) (es : GoExprList) : tblFrame s (lowerExprs s es).st := by
  cases es with
  | nil => exact tblFrame_refl s
  | cons e rest =>
    have h1 := lowerExpr_frame s e
    show tblFrame s
      (match lowerExpr s e with
       | .err s1 er => ELOut.err s1 er
       | .ok s1 v =>
         let p := autoLoad s1 v
         match lowerExprs p.1 rest with
         | .err s2 er => ELOut.err s2 er
         | .ok s2 vs => ELOut.ok s2 (p.2 :: vs)).st
    cases hx : lowerExpr s e with
    | err s1 er =>
      rw [hx] at h1
      exact h1
    | ok s1 v =>
      rw [hx] at h1
      have h2 := autoLoad_frame s1 v
      have h3 := lowerExprs_frame (autoLoad s1 v).1 rest
      dsimp only
      cases hy : lowerExprs (autoLoad s1 v).1 rest with
      | err s2 er =>
        rw [hy] at h3
        exact tblFrame_trans h1 (tblFrame_trans h2 h3)
      | ok s2 vs =>
        rw [hy] at h3
        exact tblFrame_trans h1 (tblFrame_trans h2 h3)
end

theorem lowerExprUse_frame (s : St) (e : GoExpr) : tblFrame s (lowerExprUse s e).st := by
  unfold lowerExprUse
  have h1 := lowerExpr_frame s e
  cases hx : lowerExpr s e with
  | err s1 er =>
    rw [hx] at h1
    exact h1
  | ok s1 v =>
    rw [hx] at h1
    exact tblFrame_trans h1 (autoLoad_frame s1 v)

/-- The state carried by an equality-lowering outcome (`dflt` for the
fault case, which carries none). -/
def QOut.stOr (dflt : St) : QOut → St
  | .ok s _ => s
  | .err s _ => s
  | .panik => dflt

theorem lowerEqual_frame (s : St) (a b : Value) :
    tblFrame s ((lowerEqual s a b).stOr s) := by
  unfold lowerEqual
  (repeat' split) <;> exact ⟨rfl, rfl, rfl, rfl⟩

theorem tagCaseLoop_frame (tag : Value) (caseB : Nat) (exprs : GoExprList) :
    ∀ (s : St) (nextB : Nat) (s' : St) (nb : Nat),
      tagCaseLoop tag caseB exprs s nextB = .ok s' nb → tblFrame s s' := by
  cases exprs with
  | nil =>
    intro s nextB s' nb h
    unfold tagCaseLoop at h
    cases h
    exact tblFrame_refl s
  | cons e rest =>
    intro s nextB s' nb h
    unfold tagCaseLoop at h
    have hu := lowerExprUse_frame s e
    cases hx : lowerExprUse s e with
    | err s1 er =>
      rw [hx] at h hu
      exact tblFrame_trans (tblFrame_trans hu (pushErr_frame s1 er))
        (tagCaseLoop_frame tag caseB rest _ _ _ _ h)
    | ok s1 x =>
      rw [hx] at h hu
      dsimp only at h
      have hq := lowerEqual_frame s1 tag x
      cases he : lowerEqual s1 tag x with
      | panik =>
        rw [he] at h
        cases h
      | err s2 er =>
        rw [he] at h hq
        exact tblFrame_trans (tblFrame_trans hu (tblFrame_trans hq (pushErr_frame s2 er)))
          (tagCaseLoop_frame tag caseB rest _ _ _ _ h)
      | ok s2 cond =>
        rw [he] at h hq
        dsimp only at h
        have hrest := tagCaseLoop_frame tag caseB rest _ _ _ _ h
        exact tblFrame_trans (tblFrame_trans hu (tblFrame_trans hq ⟨rfl, rfl, rfl, rfl⟩)) hrest

theorem noTagCaseLoop_frame (exprs : GoExprList) :
    ∀ (s : St) (cond : Option Value), tblFrame s (noTagCaseLoop exprs s cond).1 := by
  cases exprs with
  | nil =>
    intro s cond
    exact tblFrame_refl s
  | cons e rest =>
    intro s cond
    unfold noTagCaseLoop
    have hu := lowerExprUse_frame s e
    cases hx : lowerExprUse s e with
    | err s1 er =>
      rw [hx] at hu
      exact tblFrame_trans (tblFrame_trans hu (pushErr_frame s1 er))
        (noTagCaseLoop_frame rest _ _)
    | ok s1 x =>
      rw [hx] at hu
      dsimp only
      cases cond with
      | some c =>
        exact tblFrame_trans (tblFrame_trans hu (emit_frame s1 (.binop .lor c x) (typeOf c)))
          (noTagCaseLoop_frame rest _ _)
      | none =>
        exact tblFrame_trans hu (noTagCaseLoop_frame rest _ _)

theorem switchDispatch_frame (tag : Option Value) (cases0 : GoCaseList) :
    ∀ (s : St) (nextB : Nat) (s' : St) (bs : List Nat) (nb : Nat),
      switchDispatch tag cases0 s nextB = .ok s' bs nb → tblFrame s s' := by
  cases cases0 with
  | nil =>
    intro s nextB s' bs nb h
    unfold switchDispatch at h
    cases h
    exact tblFrame_refl s
  | cons clist body rest =>
    intro s nextB s' bs nb h
    unfold switchDispatch at h
    cases clist with
    | some exprs =>
      dsimp only at h
      cases tag with
      | some tagv =>
        dsimp only at h
        cases ht : tagCaseLoop tagv (newBlock s "").2 exprs (newBlock s "").1 nextB with
        | panik =>
          rw [ht] at h
          cases h
        | ok s2 nextB2 =>
          rw [ht] at h
          dsimp only at h
          have h0 : tblFrame s (newBlock s "").1 := ⟨rfl, rfl, rfl, rfl⟩
          have h1 := tagCaseLoop_frame tagv (newBlock s "").2 exprs (newBlock s "").1 nextB s2 nextB2 ht
          cases hr : switchDispatch (some tagv) rest s2 nextB2 with
          | panik =>
            rw [hr] at h
            cases h
          | ok s3 bs2 nb2 =>
            rw [hr] at h
            cases h
            have h2 := switchDispatch_frame (some tagv) rest s2 nextB2 _ _ _ hr
            exact tblFrame_trans h0 (tblFrame_trans h1 h2)
      | none =>
        dsimp only at h
        cases hr : switchDispatch none rest
            (newBlock (appendFBlock
              (setCur (setTermAt (noTagCaseLoop exprs (newBlock s "").1 none).1
                  (noTagCaseLoop exprs (newBlock s "").1 none).1.cur
                  (.condbr (noTagCaseLoop exprs (newBlock s "").1 none).2 (newBlock s "").2 nextB))
                nextB) nextB) "").1
            (newBlock (appendFBlock
              (setCur (setTermAt (noTagCaseLoop exprs (newBlock s "").1 none).1
                  (noTagCaseLoop exprs (newBlock s "").1 none).1.cur
                  (.condbr (noTagCaseLoop exprs (newBlock s "").1 none).2 (newBlock s "").2 nextB))
                nextB) nextB) "").2 with
        | panik =>
          rw [hr] at h
          cases h
        | ok s3 bs2 nb2 =>
          rw [hr] at h
          cases h
          have h0 : tblFrame s (newBlock s "").1 := ⟨rfl, rfl, rfl, rfl⟩
          have h1 := noTagCaseLoop_frame exprs (newBlock s "").1 none
          have h2 := switchDispatch_frame none rest _ _ _ _ _ hr
          have h3 : tblFrame (noTagCaseLoop exprs (newBlock s "").1 none).1
              (newBlock (appendFBlock
                (setCur (setTermAt (noTagCaseLoop exprs (newBlock s "").1 none).1
                    (noTagCaseLoop exprs (newBlock s "").1 none).1.cur
                    (.condbr (noTagCaseLoop exprs (newBlock s "").1 none).2 (newBlock s "").2 nextB))
                  nextB) nextB) "").1 := ⟨rfl, rfl, rfl, rfl⟩
          exact tblFrame_trans h0 (tblFrame_trans h1 (tblFrame_trans h3 h2))
    | none =>
      dsimp only at h
      cases hr : switchDispatch tag rest
          (setTermAt (newBlock s "").1 (newBlock s "").1.cur (.br (newBlock s "").2)) nextB with
      | panik =>
        rw [hr] at h
        cases h
      | ok s3 bs2 nb2 =>
        rw [hr] at h
        cases h
        have h0 : tblFrame s
            (setTermAt (newBlock s "").1 (newBlock s "").1.cur (.br (newBlock s "").2)) :=
          ⟨rfl, rfl, rfl, rfl⟩
        have h2 := switchDispatch_frame tag rest _ nextB _ _ _ hr
        exact tblFrame_trans h0 h2

theorem insertChain_frame (vs : List Value) :
    ∀ (s : St) (agg : Value) (i : Nat), tblFrame s (insertChain s agg i vs).1 := by
  induction vs with
  | nil =>
    intro s agg i
    exact tblFrame_refl s
  | cons v r ih =>
    intro s agg i
    unfold insertChain
    exact tblFrame_trans (emit_frame s (.insertvalue agg v i) (typeOf agg)) (ih _ _ _)

theorem NewAggregateRet_frame (s : St) (results : List Value) :
    tblFrame s (NewAggregateRet s results) := by
  unfold NewAggregateRet
  exact tblFrame_trans (insertChain_frame results s _ 0) ⟨rfl, rfl, rfl, rfl⟩

/-- `ensureBr` only touches the block arena: symbol tables and module
lists are untouched. -/
theorem ensureBr_frame (s : St) (fb : Nat) : tblFrame s (ensureBr s fb) := by
  unfold ensureBr
  cases blkTermAt s s.cur <;> exact ⟨rfl, rfl, rfl, rfl⟩

mutual
theorem lowerStmt_frame (s : St) (st : GoStmt) :
    ∀ s', lowerStmt s st = .next s' → tblFrame s s' := by
  cases st with
  | block stmts =>
    intro s' h
    exact lowerStmtList_frame s stmts s' h
  | exprStmt e =>
    intro s' h
    have hunf : lowerStmt s (.exprStmt e) = exprDone (lowerExpr s e) := rfl
    rw [hunf] at h
    have fe := lowerExpr_frame s e
    cases hx : lowerExpr s e with
    | err s1 er =>
      rw [hx] at h fe
      dsimp only [exprDone] at h
      cases h
      exact tblFrame_trans fe (pushErr_frame s1 er)
    | ok s1 v =>
      rw [hx] at h fe
      dsimp only [exprDone] at h
      cases h
      exact fe
  | ret results =>
    intro s' h
    have hunf : lowerStmt s (.ret results) = retLower (lowerExprs s results) := rfl
    rw [hunf] at h
    have fe := lowerExprs_frame s results
    cases hx : lowerExprs s results with
    | err se er =>
      rw [hx] at h fe
      dsimp only [retLower] at h
      cases h
      exact tblFrame_trans fe (pushErr_frame se er)
    | ok se vls =>
      rw [hx] at h fe
      dsimp only [retLower] at h
      match vls, h with
      | [], h =>
        cases h
        exact tblFrame_trans fe ⟨rfl, rfl, rfl, rfl⟩
      | [v], h =>
        cases h
        exact tblFrame_trans fe ⟨rfl, rfl, rfl, rfl⟩
      | a :: b :: r, h =>
        cases h
        exact tblFrame_trans fe (NewAggregateRet_frame se (a :: b :: r))
  | ifStmt ini cond body els =>
    cases els with
    | none =>
      intro s' h
      have hunf : lowerStmt s (.ifStmt ini cond body .none) =
          stmtStep (lowerStmtOpt s ini) (fun s1 =>
            stmtExpr (lowerExprUse s1 cond) (fun s2 condv =>
              stmtStep (lowerStmt (setCur (fNewBlock (newBlock s2 "").1 "").1 (fNewBlock (newBlock s2 "").1 "").2) body) (fun s4 =>
                .next (appendFBlock (setCur (setTermAt (ensureBr s4 (newBlock s2 "").2) s2.cur (.condbr (some condv) (fNewBlock (newBlock s2 "").1 "").2 (newBlock s2 "").2)) (newBlock s2 "").2) (newBlock s2 "").2)))) := rfl
      rw [hunf] at h
      cases h1 : lowerStmtOpt s ini with
      | panik =>
        rw [h1] at h
        dsimp only [stmtStep] at h
        cases h
      | next s1 =>
        rw [h1] at h
        dsimp only [stmtStep] at h
        have f1 := lowerStmtOpt_frame s ini s1 h1
        have f2 := lowerExprUse_frame s1 cond
        cases h2 : lowerExprUse s1 cond with
        | err s2 er =>
          rw [h2] at h f2
          dsimp only [stmtExpr] at h
          cases h
          exact tblFrame_trans f1 (tblFrame_trans f2 (pushErr_frame s2 er))
        | ok s2 condv =>
          rw [h2] at h f2
          dsimp only [stmtExpr] at h
          cases h3 : lowerStmt (setCur (fNewBlock (newBlock s2 "").1 "").1 (fNewBlock (newBlock s2 "").1 "").2) body with
          | panik =>
            rw [h3] at h
            dsimp only [stmtStep] at h
            cases h
          | next s4 =>
            rw [h3] at h
            dsimp only [stmtStep] at h
            have f3 := lowerStmt_frame (setCur (fNewBlock (newBlock s2 "").1 "").1 (fNewBlock (newBlock s2 "").1 "").2) body s4 h3
            cases h
            exact tblFrame_trans f1 (tblFrame_trans f2 (tblFrame_trans
              (⟨rfl, rfl, rfl, rfl⟩ : tblFrame s2 (setCur (fNewBlock (newBlock s2 "").1 "").1 (fNewBlock (newBlock s2 "").1 "").2))
              (tblFrame_trans f3 (tblFrame_trans (ensureBr_frame s4 (newBlock s2 "").2) ⟨rfl, rfl, rfl, rfl⟩))))
    | some elsStmt =>
      intro s' h
      have hunf : lowerStmt s (.ifStmt ini cond body (.some elsStmt)) =
          stmtStep (lowerStmtOpt s ini) (fun s1 =>
            stmtExpr (lowerExprUse s1 cond) (fun s2 condv =>
              stmtStep (lowerStmt (setCur (fNewBlock (newBlock s2 "").1 "").1 (fNewBlock (newBlock s2 "").1 "").2) body) (fun s4 =>
                stmtStep (lowerStmt (setCur (fNewBlock (ensureBr s4 (newBlock s2 "").2) "").1 (fNewBlock (ensureBr s4 (newBlock s2 "").2) "").2) elsStmt) (fun s7 =>
                  .next (appendFBlock (setCur (setTermAt (ensureBr s7 (newBlock s2 "").2) s2.cur (.condbr (some condv) (fNewBlock (newBlock s2 "").1 "").2 (fNewBlock (ensureBr s4 (newBlock s2 "").2) "").2)) (newBlock s2 "").2) (newBlock s2 "").2))))) := rfl
      rw [hunf] at h
      cases h1 : lowerStmtOpt s ini with
      | panik =>
        rw [h1] at h
        dsimp only [stmtStep] at h
        cases h
      | next s1 =>
        rw [h1] at h
        dsimp only [stmtStep] at h
        have f1 := lowerStmtOpt_frame s ini s1 h1
        have f2 := lowerExprUse_frame s1 cond
        cases h2 : lowerExprUse s1 cond with
        | err s2 er =>
          rw [h2] at h f2
          dsimp only [stmtExpr] at h
          cases h
          exact tblFrame_trans f1 (tblFrame_trans f2 (pushErr_frame s2 er))
        | ok s2 condv =>
          rw [h2] at h f2
          dsimp only [stmtExpr] at h
          cases h3 : lowerStmt (setCur (fNewBlock (newBlock s2 "").1 "").1 (fNewBlock (newBlock s2 "").1 "").2) body with
          | panik =>
            rw [h3] at h
            dsimp only [stmtStep] at h
            cases h
          | next s4 =>
            rw [h3] at h
            dsimp only [stmtStep] at h
            have f3 := lowerStmt_frame (setCur (fNewBlock (newBlock s2 "").1 "").1 (fNewBlock (newBlock s2 "").1 "").2) body s4 h3
            cases h5 : lowerStmt (setCur (fNewBlock (ensureBr s4 (newBlock s2 "").2) "").1 (fNewBlock (ensureBr s4 (newBlock s2 "").2) "").2) elsStmt with
            | panik =>
              rw [h5] at h
              dsimp only [stmtStep] at h
              cases h
            | next s7 =>
              rw [h5] at h
              dsimp only [stmtStep] at h
              have f5 := lowerStmt_frame (setCur (fNewBlock (ensureBr s4 (newBlock s2 "").2) "").1 (fNewBlock (ensureBr s4 (newBlock s2 "").2) "").2) elsStmt s7 h5
              cases h
              exact tblFrame_trans f1 (tblFrame_trans f2 (tblFrame_trans
                (⟨rfl, rfl, rfl, rfl⟩ : tblFrame s2 (setCur (fNewBlock (newBlock s2 "").1 "").1 (fNewBlock (newBlock s2 "").1 "").2))
                (tblFrame_trans f3 (tblFrame_trans
                  (tblFrame_trans (ensureBr_frame s4 (newBlock s2 "").2) ⟨rfl, rfl, rfl, rfl⟩)
                  (tblFrame_trans f5 (tblFrame_trans (ensureBr_frame s7 (newBlock s2 "").2) ⟨rfl, rfl, rfl, rfl⟩))))))
  | switchStmt ini tag cases0 =>
    cases tag with
    | some te =>
      intro s' h
      have hunf : lowerStmt s (.switchStmt ini (some te) cases0) =
          stmtStep (lowerStmtOpt s ini) (fun s1 =>
            stmtExpr (lowerExprUse s1 te) (fun s2 tagv =>
              dispStep (switchDispatch (some tagv) cases0 (newBlock (newBlock s2 "").1 "").1 (newBlock s2 "").2) (fun s3 caseBs x =>
                stmtStep (switchBodies caseBs (newBlock (newBlock s2 "").1 "").2 s3 cases0) (fun s4 =>
                  .next (appendFBlock (setCur s4 (newBlock (newBlock s2 "").1 "").2) (newBlock (newBlock s2 "").1 "").2))))) := rfl
      rw [hunf] at h
      cases h1 : lowerStmtOpt s ini with
      | panik =>
        rw [h1] at h
        dsimp only [stmtStep] at h
        cases h
      | next s1 =>
        rw [h1] at h
        dsimp only [stmtStep] at h
        have f1 := lowerStmtOpt_frame s ini s1 h1
        have f2 := lowerExprUse_frame s1 te
        cases h2 : lowerExprUse s1 te with
        | err s2 er =>
          rw [h2] at h f2
          dsimp only [stmtExpr] at h
          cases h
          exact tblFrame_trans f1 (tblFrame_trans f2 (pushErr_frame s2 er))
        | ok s2 tagv =>
          rw [h2] at h f2
          dsimp only [stmtExpr] at h
          cases h3 : switchDispatch (some tagv) cases0 (newBlock (newBlock s2 "").1 "").1 (newBlock s2 "").2 with
          | panik =>
            rw [h3] at h
            dsimp only [dispStep] at h
            cases h
          | ok s3 caseBs nb =>
            rw [h3] at h
            dsimp only [dispStep] at h
            have f3 := switchDispatch_frame (some tagv) cases0 (newBlock (newBlock s2 "").1 "").1 (newBlock s2 "").2 _ _ _ h3
            cases h4 : switchBodies caseBs (newBlock (newBlock s2 "").1 "").2 s3 cases0 with
            | panik =>
              rw [h4] at h
              dsimp only [stmtStep] at h
              cases h
            | next s4 =>
              rw [h4] at h
              dsimp only [stmtStep] at h
              cases h
              have f4 := switchBodies_frame caseBs (newBlock (newBlock s2 "").1 "").2 s3 cases0 s4 h4
              exact tblFrame_trans f1 (tblFrame_trans f2 (tblFrame_trans
                (⟨rfl, rfl, rfl, rfl⟩ : tblFrame s2 (newBlock (newBlock s2 "").1 "").1)
                (tblFrame_trans f3 (tblFrame_trans f4 ⟨rfl, rfl, rfl, rfl⟩))))
    | none =>
      intro s' h
      have hunf : lowerStmt s (.switchStmt ini none cases0) =
          stmtStep (lowerStmtOpt s ini) (fun s1 =>
            dispStep (switchDispatch none cases0 (newBlock (newBlock s1 "").1 "").1 (newBlock s1 "").2) (fun s3 caseBs x =>
              stmtStep (switchBodies caseBs (newBlock (newBlock s1 "").1 "").2 s3 cases0) (fun s4 =>
                .next (appendFBlock (setCur s4 (newBlock (newBlock s1 "").1 "").2) (newBlock (newBlock s1 "").1 "").2)))) := rfl
      rw [hunf] at h
      cases h1 : lowerStmtOpt s ini with
      | panik =>
        rw [h1] at h
        dsimp only [stmtStep] at h
        cases h
      | next s1 =>
        rw [h1] at h
        dsimp only [stmtStep] at h
        have f1 := lowerStmtOpt_frame s ini s1 h1
        cases h3 : switchDispatch none cases0 (newBlock (newBlock s1 "").1 "").1 (newBlock s1 "").2 with
        | panik =>
          rw [h3] at h
          dsimp only [dispStep] at h
          cases h
        | ok s3 caseBs nb =>
          rw [h3] at h
          dsimp only [dispStep] at h
          have f3 := switchDispatch_frame none cases0 (newBlock (newBlock s1 "").1 "").1 (newBlock s1 "").2 _ _ _ h3
          cases h4 : switchBodies caseBs (newBlock (newBlock s1 "").1 "").2 s3 cases0 with
          | panik =>
            rw [h4] at h
            dsimp only [stmtStep] at h
            cases h
          | next s4 =>
            rw [h4] at h
            dsimp only [stmtStep] at h
            cases h
            have f4 := switchBodies_frame caseBs (newBlock (newBlock s1 "").1 "").2 s3 cases0 s4 h4
            exact tblFrame_trans f1 (tblFrame_trans
              (⟨rfl, rfl, rfl, rfl⟩ : tblFrame s1 (newBlock (newBlock s1 "").1 "").1)
              (tblFrame_trans f3 (tblFrame_trans f4 ⟨rfl, rfl, rfl, rfl⟩)))

theorem lowerStmtList_frame (s : St) (sts : GoStmtList) :
    ∀ s', lowerStmtList s sts = .next s' → tblFrame s s' := by
  cases sts with
  | nil =>
    intro s' h
    cases h
    exact tblFrame_refl s
  | cons st rest =>
    intro s' h
    have hunf : lowerStmtList s (.cons st rest) =
        stmtStep (lowerStmt s st) (fun s1 => lowerStmtList s1 rest) := rfl
    rw [hunf] at h
    cases h1 : lowerStmt s st with
    | panik =>
      rw [h1] at h
      dsimp only [stmtStep] at h
      cases h
    | next s1 =>
      rw [h1] at h
      dsimp only [stmtStep] at h
      exact tblFrame_trans (lowerStmt_frame s st s1 h1) (lowerStmtList_frame s1 rest s' h)

theorem lowerStmtOpt_frame (s : St) (o : GoStmtOpt) :
    ∀ s', lowerStmtOpt s o = .next s' → tblFrame s s' := by
  cases o with
  | none =>
    intro s' h
    cases h
    exact tblFrame_refl s
  | some st =>
    intro s' h
    exact lowerStmt_frame s st s' h

theorem switchBodies_frame (caseBs : List Nat) (followB : Nat) (s : St) (cs : GoCaseList) :
    ∀ s', switchBodies caseBs followB s cs = .next s' → tblFrame s s' := by
  cases cs with
  | nil =>
    intro s' h
    cases h
    exact tblFrame_refl s
  | cons clist body rest =>
    cases caseBs with
    | nil =>
      intro s' h
      have hunf : switchBodies [] followB s (.cons clist body rest) = .panik := rfl
      rw [hunf] at h
      cases h
    | cons caseB cbs =>
      intro s' h
      have hunf : switchBodies (caseB :: cbs) followB s (.cons clist body rest) =
          stmtStep (lowerStmtList (setCur s caseB) body) (fun s2 =>
            switchBodies cbs followB (appendFBlock (ensureBr s2 followB) caseB) rest) := rfl
      rw [hunf] at h
      cases h1 : lowerStmtList (setCur s caseB) body with
      | panik =>
        rw [h1] at h
        dsimp only [stmtStep] at h
        cases h
      | next s2 =>
        rw [h1] at h
        dsimp only [stmtStep] at h
        have f1 := lowerStmtList_frame (setCur s caseB) body s2 h1
        have frec := switchBodies_frame cbs followB (appendFBlock (ensureBr s2 followB) caseB) rest s' h
        exact tblFrame_trans (⟨rfl, rfl, rfl, rfl⟩ : tblFrame s (setCur s caseB))
          (tblFrame_trans f1 (tblFrame_trans
            (tblFrame_trans (ensureBr_frame s2 followB) ⟨rfl, rfl, rfl, rfl⟩) frec))
end

/-! Claim C8: partial output of declarations whose lowering reports
errors. `lowerFuncDecl` registers the synthesized function in the module
and the symbol table before lowering the body, and statement lowering
never touches the symbol tables or module lists, so there is no rollback
when the body reports errors. -/

/-- A function declaration whose body first emits an instruction and then
fails to resolve an identifier. -/
def partialDecl : FuncDecl :=
  ⟨"f", [], [], [], some (.cons (.exprStmt (.binary .add (.intLit 64 1) (.intLit 64 2)))
    (.cons (.exprStmt (.ident "missing")) .nil))⟩

/-- `lowerFuncBody` only touches the block arena, cursor and diagnostics:
symbol tables and module lists are untouched. -/
theorem lowerFuncBody_frame (s : St) (body : GoStmtList) :
    ∀ s', lowerFuncBody s body = .next s' → tblFrame s s' := by
  intro s' h
  have hunf : lowerFuncBody s body =
      lowerStmtList (setCur (fNewBlock s "entry").1 (fNewBlock s "entry").2) body := rfl
  rw [hunf] at h
  exact tblFrame_trans (⟨rfl, rfl, rfl, rfl⟩ :
    tblFrame s (setCur (fNewBlock s "entry").1 (fNewBlock s "entry").2))
    (lowerStmtList_frame _ body s' h)

/-- Claim C8 (amended): lowering a function declaration with a fresh name
registers the synthesized signature in the symbol table and appends the
scaffolding function to the module list before the body is lowered, and
this registration persists in every successful outcome, including runs in
which body lowering reported errors: the module and symbol table are not
left as if the failed declaration had not been processed. -/
theorem func_decl_no_rollback (s : St) (d : FuncDecl) (f : FuncSig)
    (hf : synthSig d = some f) (hdup : tblGet s.funcs f.name = none) :
    ∀ s1, lowerFuncDecl s d = .ok s1 →
      tblGet s1.funcs f.name = some f ∧ s1.modFuncs = s.modFuncs ++ [f] := by
  intro s1 h
  unfold lowerFuncDecl at h
  rw [hf] at h
  dsimp only at h
  rw [hdup] at h
  dsimp only at h
  cases hb : d.body with
  | none =>
    rw [hb] at h
    dsimp only at h
    cases h
    refine ⟨?_, rfl⟩
    rw [tblGet_tblPut]
    simp
  | some body =>
    rw [hb] at h
    dsimp only at h
    split at h
    · cases h
    · rename_i s4 heq
      cases h
      obtain ⟨hfu, hgl, hmf, hmg⟩ := lowerFuncBody_frame _ body _ heq
      constructor
      · rw [hfu]
        show tblGet (tblPut s.funcs f.name f) f.name = some f
        rw [tblGet_tblPut]
        simp
      · rw [hmf]

/-- Witness for C8 at `partialDecl` over the empty state. -/
theorem func_decl_no_rollback_witness :
    ∃ s1, lowerFuncDecl emptySt partialDecl = .ok s1 ∧
      tblGet s1.funcs "f" = some ⟨"f", [], .void⟩ ∧
      s1.modFuncs = emptySt.modFuncs ++ [⟨"f", [], .void⟩] :=
  ⟨_, rfl, func_decl_no_rollback emptySt partialDecl ⟨"f", [], .void⟩ rfl rfl _ rfl⟩

/-- Counterexample for C8 as stated: the body of `partialDecl` reports an
unresolved-identifier error, yet the resulting state still has the
function registered in the symbol table and the module list, and the
entry block holds the partially emitted instruction of the failed body. -/
theorem func_decl_partial_output_counterexample :
    ∃ s1, lowerFuncDecl emptySt partialDecl = .ok s1 ∧
      s1.errs = [.unresolvedIdent "missing"] ∧
      tblGet s1.funcs "f" = some ⟨"f", [], .void⟩ ∧
      s1.modFuncs = [⟨"f", [], .void⟩] ∧
      (blkInstsAt s1 0).length = 1 := by
  refine ⟨_, rfl, ?_, ?_, ?_, ?_⟩ <;> rfl

/-! Claim C1: terminator discipline of if/switch lowering. -/

/-- `switch 1 { case 1: return }; return` as a function body. -/
def switchRetStmts : GoStmtList :=
  .cons (.switchStmt .none (some (.intLit 64 1))
    (.cons (some (.cons (.intLit 64 1) .nil)) (.cons (.ret .nil) .nil) .nil))
    (.cons (.ret .nil) .nil)

/-- `switch 1 { default: 7; case 1: 8 }; return` as a function body: a
default clause appearing before a value case. -/
def defaultFirstStmts : GoStmtList :=
  .cons (.switchStmt .none (some (.intLit 64 1))
    (.cons none (.cons (.exprStmt (.intLit 64 7)) .nil)
      (.cons (some (.cons (.intLit 64 1) .nil)) (.cons (.exprStmt (.intLit 64 8)) .nil) .nil)))
    (.cons (.ret .nil) .nil)

/-- Claim C1 (refuted by the code): lowering `switch 1 { case 1: return };
return` succeeds with no diagnostics, yet the probe block allocated as the
final dispatch target (arena index 1) is appended to the function block
list without ever receiving a terminator (its terminator is absent and its
terminator-write count is zero); and lowering a switch whose default
clause precedes a value case succeeds with no diagnostics, yet assigns the
terminator of the dispatch block (arena index 0) twice. -/
theorem switch_terminator_bug :
    (∃ s, lowerFuncBody testFuncSt switchRetStmts = .next s ∧
      s.errs = [] ∧ 1 ∈ s.fblocks ∧ blkTermAt s 1 = none ∧
      s.arena.map Blk.termWrites = [1, 0, 1, 1, 0]) ∧
    (∃ s, lowerFuncBody testFuncSt defaultFirstStmts = .next s ∧
      s.errs = [] ∧ s.arena.map Blk.termWrites = [2, 0, 1, 1, 1, 0]) := by
  constructor
  · exact ⟨_, rfl, rfl, by decide, rfl, rfl⟩
  · exact ⟨_, rfl, rfl, rfl⟩

/-! Claim C7: order-independence of indexing. The table writes performed
by indexing are abstracted as action lists; indexing a unit applies the
actions of its declarations in order, and applying actions with pairwise
distinct keys is order-independent up to table lookup. -/

/-- Apply a list of table writes in order. -/
def applyPuts {α : Type} (m : List (String × α)) (acts : List (String × α)) :
    List (String × α) :=
  acts.foldl (fun t a => tblPut t a.1 a.2) m

/-- The function-table registration performed by indexing one declaration. -/
def declFuncActs : GoDecl → List (String × FuncSig)
  | .funcDecl d =>
    match synthSig d with
    | some f => [(f.name, f)]
    | none => []
  | .genDecl _ => []

/-- The global-table registrations performed by indexing one value
specifier: nothing on a failed type resolution, one entry per declared
name otherwise. -/
def vsActs (typeRes : Except Err IRType) (names : List String) : List (String × IRType) :=
  match typeRes with
  | .ok t => names.map (fun n => (n, t))
  | .error _ => []

/-- The global-table registrations performed by indexing one specifier. -/
def specGlobActs : Spec → List (String × IRType)
  | .valueSpec vs => vsActs vs.typeRes vs.names
  | _ => []

/-- The global-table registrations performed by indexing one declaration. -/
def declGlobActs : GoDecl → List (String × IRType)
  | .funcDecl _ => []
  | .genDecl specs => specs.flatMap specGlobActs

theorem applyPuts_append {α : Type} (m : List (String × α)) (a b : List (String × α)) :
    applyPuts m (a ++ b) = applyPuts (applyPuts m a) b :=
  List.foldl_append _ m a b

theorem indexValueSpec_tables (typeRes : Except Err IRType) (names : List String) :
    ∀ s : St, (indexValueSpec typeRes s names).funcs = s.funcs ∧
      (indexValueSpec typeRes s names).globals = applyPuts s.globals (vsActs typeRes names) := by
  induction names with
  | nil => intro s; cases typeRes <;> exact ⟨rfl, rfl⟩
  | cons name rest ih =>
    intro s
    cases typeRes with
    | error e => exact ih (pushErr s e)
    | ok t =>
      obtain ⟨h1, h2⟩ := ih { s with
        modGlobals := s.modGlobals ++ [.decl name t],
        globals := tblPut s.globals name t }
      exact ⟨h1, h2⟩

theorem indexGenDecl_tables (specs : List Spec) :
    ∀ s : St, (indexGenDecl s specs).funcs = s.funcs ∧
      (indexGenDecl s specs).globals = applyPuts s.globals (specs.flatMap specGlobActs) := by
  induction specs with
  | nil => intro s; exact ⟨rfl, rfl⟩
  | cons sp rest ih =>
    intro s
    cases sp with
    | importSpec => exact ih s
    | typeSpec => exact ih s
    | valueSpec vs =>
      obtain ⟨hf, hg⟩ := indexValueSpec_tables vs.typeRes vs.names s
      obtain ⟨hf2, hg2⟩ := ih (indexValueSpec vs.typeRes s vs.names)
      constructor
      · exact hf2.trans hf
      · show (indexGenDecl (indexValueSpec vs.typeRes s vs.names) rest).globals =
          applyPuts s.globals ((Spec.valueSpec vs :: rest).flatMap specGlobActs)
        rw [hg2, hg, List.flatMap_cons, applyPuts_append]
        rfl

theorem indexUnit_tables (decls : List GoDecl) :
    ∀ s : St,
      (∀ fd, GoDecl.funcDecl fd ∈ decls → (synthSig fd).isSome) →
      (∀ p ∈ decls.flatMap declFuncActs, tblGet s.funcs p.1 = none) →
      ((decls.flatMap declFuncActs).map Prod.fst).Nodup →
      ∃ s1, indexUnit s decls = .ok s1 ∧
        s1.funcs = applyPuts s.funcs (decls.flatMap declFuncActs) ∧
        s1.globals = applyPuts s.globals (decls.flatMap declGlobActs) := by
  induction decls with
  | nil => intro s _ _ _; exact ⟨s, rfl, rfl, rfl⟩
  | cons d rest ih =>
    intro s hsynth hfresh hnodup
    cases d with
    | funcDecl fd =>
      have hs : (synthSig fd).isSome := hsynth fd (List.mem_cons_self _ _)
      obtain ⟨f, hf⟩ := Option.isSome_iff_exists.mp hs
      have hacts : (GoDecl.funcDecl fd :: rest).flatMap declFuncActs
          = (f.name, f) :: rest.flatMap declFuncActs := by
        simp [declFuncActs, hf]
      have hdup : tblGet s.funcs f.name = none := by
        have := hfresh (f.name, f) (by rw [hacts]; exact List.mem_cons_self _ _)
        exact this
      have hstep : indexDecl s (GoDecl.funcDecl fd) =
          .ok { s with modFuncs := s.modFuncs ++ [f], funcs := tblPut s.funcs f.name f } := by
        simp only [indexDecl, indexFuncDecl, hf, hdup]
      rw [hacts] at hnodup
      simp only [List.map_cons, List.nodup_cons] at hnodup
      obtain ⟨hnotin, hnodup2⟩ := hnodup
      have hfresh2 : ∀ p ∈ rest.flatMap declFuncActs,
          tblGet (tblPut s.funcs f.name f) p.1 = none := by
        intro p hp
        rw [tblGet_tblPut]
        have hne : ¬ f.name = p.1 := by
          intro he
          apply hnotin
          rw [he]
          exact List.mem_map_of_mem Prod.fst hp
        rw [if_neg hne]
        exact hfresh p (by rw [hacts]; exact List.mem_cons_of_mem _ hp)
      obtain ⟨s1, hrun, hfuncs, hglobs⟩ :=
        ih { s with modFuncs := s.modFuncs ++ [f], funcs := tblPut s.funcs f.name f }
          (fun fd2 hm => hsynth fd2 (List.mem_cons_of_mem _ hm)) hfresh2 hnodup2
      refine ⟨s1, ?_, ?_, ?_⟩
      · simp only [indexUnit]
        rw [hstep]
        exact hrun
      · rw [hfuncs, hacts]
        rfl
      · rw [hglobs]
        rfl
    | genDecl specs =>
      obtain ⟨hgf, hgg⟩ := indexGenDecl_tables specs s
      have hfresh2 : ∀ p ∈ rest.flatMap declFuncActs,
          tblGet (indexGenDecl s specs).funcs p.1 = none := by
        intro p hp
        rw [hgf]
        exact hfresh p hp
      obtain ⟨s1, hrun, hfuncs, hglobs⟩ := ih (indexGenDecl s specs)
        (fun fd2 hm => hsynth fd2 (List.mem_cons_of_mem _ hm)) hfresh2 hnodup
      refine ⟨s1, ?_, ?_, ?_⟩
      · simp only [indexUnit, indexDecl]
        exact hrun
      · rw [hfuncs, hgf]
        rfl
      · rw [hglobs, hgg, List.flatMap_cons, applyPuts_append]
        rfl

theorem applyPuts_congr {α : Type} (acts : List (String × α)) :
    ∀ (m1 m2 : List (String × α)), (∀ k, tblGet m1 k = tblGet m2 k) →
      ∀ k, tblGet (applyPuts m1 acts) k = tblGet (applyPuts m2 acts) k := by
  induction acts with
  | nil => intro m1 m2 hm k; exact hm k
  | cons a rest ih =>
    intro m1 m2 hm k
    exact ih (tblPut m1 a.1 a.2) (tblPut m2 a.1 a.2)
      (fun n => by rw [tblGet_tblPut, tblGet_tblPut, hm n]) k

theorem tblPut_comm_get {α : Type} (m : List (String × α)) (k1 k2 : String) (v1 v2 : α)
    (hne : k1 ≠ k2) (n : String) :
    tblGet (tblPut (tblPut m k1 v1) k2 v2) n = tblGet (tblPut (tblPut m k2 v2) k1 v1) n := by
  rw [tblGet_tblPut, tblGet_tblPut, tblGet_tblPut, tblGet_tblPut]
  by_cases h1 : k1 = n <;> by_cases h2 : k2 = n <;> simp [h1, h2]
  exact absurd (h1.trans h2.symm) hne

theorem applyPuts_perm_get {α : Type} {a1 a2 : List (String × α)} (h : a1.Perm a2) :
    (a1.map Prod.fst).Nodup →
    ∀ (m : List (String × α)) (k : String),
      tblGet (applyPuts m a1) k = tblGet (applyPuts m a2) k := by
  induction h with
  | nil => intro _ m k; rfl
  | cons x hp ih =>
    intro hn m k
    simp only [List.map_cons, List.nodup_cons] at hn
    exact ih hn.2 (tblPut m x.1 x.2) k
  | swap x y t =>
    intro hn m k
    simp only [List.map_cons, List.nodup_cons, List.mem_cons] at hn
    have hne : y.1 ≠ x.1 := fun he => hn.1 (Or.inl he)
    exact applyPuts_congr t _ _ (tblPut_comm_get m y.1 x.1 y.2 x.2 hne) k
  | trans h1 h2 ih1 ih2 =>
    intro hn m k
    have hn2 := (h1.map Prod.fst).nodup hn
    exact (ih1 hn m k).trans (ih2 hn2 m k)

/-- Claim C7: indexing a unit whose declarations all synthesize a
signature, whose registered function names are fresh for the starting
state and pairwise distinct, and whose registered global names are
pairwise distinct, succeeds in any permuted order and yields the same
Global Symbol Table: function and global lookups agree pointwise between
the two runs. -/
theorem index_order_independence (s : St) (decls1 decls2 : List GoDecl)
    (hperm : decls1.Perm decls2)
    (hsynth : ∀ fd, GoDecl.funcDecl fd ∈ decls1 → (synthSig fd).isSome)
    (hfresh : ∀ p ∈ decls1.flatMap declFuncActs, tblGet s.funcs p.1 = none)
    (hnodupF : ((decls1.flatMap declFuncActs).map Prod.fst).Nodup)
    (hnodupG : ((decls1.flatMap declGlobActs).map Prod.fst).Nodup) :
    ∃ s1 s2, indexUnit s decls1 = .ok s1 ∧ indexUnit s decls2 = .ok s2 ∧
      (∀ k, tblGet s1.funcs k = tblGet s2.funcs k) ∧
      (∀ k, tblGet s1.globals k = tblGet s2.globals k) := by
  have hpF := hperm.flatMap_right declFuncActs
  have hpG := hperm.flatMap_right declGlobActs
  obtain ⟨s1, hr1, hf1, hg1⟩ := indexUnit_tables decls1 s hsynth hfresh hnodupF
  obtain ⟨s2, hr2, hf2, hg2⟩ := indexUnit_tables decls2 s
    (fun fd hm => hsynth fd (hperm.mem_iff.mpr hm))
    (fun p hp => hfresh p (hpF.mem_iff.mpr hp))
    ((hpF.map Prod.fst).nodup hnodupF)
  refine ⟨s1, s2, hr1, hr2, ?_, ?_⟩
  · intro k
    rw [hf1, hf2]
    exact applyPuts_perm_get hpF hnodupF s.funcs k
  · intro k
    rw [hg1, hg2]
    exact applyPuts_perm_get hpG hnodupG s.globals k

/-- A function declaration `a` and a value declaration `g`, used to
witness order-independent indexing. -/
def declA : GoDecl := .funcDecl ⟨"a", [], [], [], none⟩

def declB : GoDecl := .genDecl [.valueSpec ⟨["g"], .ok (.int 64), []⟩]

/-- Witness for C7 at a two-declaration unit and its swap. -/
theorem index_order_independence_witness :
    ∃ s1 s2, indexUnit emptySt [declA, declB] = .ok s1 ∧
      indexUnit emptySt [declB, declA] = .ok s2 ∧
      (∀ k, tblGet s1.funcs k = tblGet s2.funcs k) ∧
      (∀ k, tblGet s1.globals k = tblGet s2.globals k) := by
  refine index_order_independence emptySt [declA, declB] [declB, declA]
    (List.Perm.swap declB declA []) ?_ ?_ ?_ ?_
  · intro fd hm
    simp only [declA, declB, List.mem_cons, List.not_mem_nil, or_false] at hm
    rcases hm with h | h
    · cases h
      rfl
    · simp at h
  · intro p hp
    rfl
  · decide
  · decide

end Toy
